import Mathlib

set_option maxRecDepth 200000

/-!
Verification development for the RepoScope repository analyzer.

The TypeScript sources are shallowly embedded over `List Char`:
strings become `List Char`, JavaScript regex operations used by the code
become explicit recursive functions with the exact matching semantics of
the concrete patterns appearing in the source, and fallible operations
return `Option`/`Except`.
-/

/-- Strings of the embedded program are lists of characters. -/
abbrev Str := List Char

/-- Whitespace characters recognised by JavaScript `String.prototype.trim`
and by the regex class `\s` (WhiteSpace plus LineTerminator). -/
def jsWsChars : Str :=
  [' ', '\t', '\n', '\r', '\x0b', '\x0c', '\u00A0', '\u1680', '\u2000',
   '\u2001', '\u2002', '\u2003', '\u2004', '\u2005', '\u2006', '\u2007',
   '\u2008', '\u2009', '\u200A', '\u2028', '\u2029', '\u202F', '\u205F',
   '\u3000', '\uFEFF']

/-- Membership in the JavaScript whitespace set. -/
def isJsWs (c : Char) : Bool := jsWsChars.contains c

/-- Embedding of JavaScript `s.trim()`. -/
def trimL (l : Str) : Str := ((l.dropWhile isJsWs).reverse.dropWhile isJsWs).reverse

/-- Embedding of JavaScript `s.startsWith(p)`. -/
def startsWithL (p l : Str) : Bool := p.isPrefixOf l

/-- Embedding of JavaScript `s.endsWith(p)`. -/
def endsWithL (p l : Str) : Bool := p.isSuffixOf l

/-- One attempt of the regex fragment `\s*([}\]])` used by
`sanitizeJSON`'s global replace `/,\s*([}\]])/g`: skip whitespace after a
comma and return the closing bracket together with the rest of the input. -/
def matchClose (t : Str) : Option (Char × Str) :=
  match t.dropWhile isJsWs with
  | c :: r => if c = '\x7d' ∨ c = ']' then some (c, r) else none
  | [] => none

theorem matchClose_length {t : Str} {b : Char} {r : Str}
    (h : matchClose t = some (b, r)) : r.length < t.length := by
  unfold matchClose at h
  rcases hd : t.dropWhile isJsWs with _ | ⟨c, r'⟩ <;> rw [hd] at h
  · simp at h
  · by_cases hc : c = '\x7d' ∨ c = ']'
    · simp only [hc, if_true, Option.some.injEq, Prod.mk.injEq] at h
      obtain ⟨hb, hr⟩ := h
      subst hr
      have hlen : (t.dropWhile isJsWs).length ≤ t.length :=
        (List.dropWhile_sublist isJsWs).length_le
      rw [hd] at hlen
      simp only [List.length_cons] at hlen
      omega
    · simp [hc] at h

/-- Fuelled worker for `commaReplace`; the fuel only serves to make the
recursion structural, and any fuel of at least the list's length gives
the same result. -/
def commaReplaceF : Nat → Str → Str
  | _, [] => []
  | 0, l => l
  | fuel + 1, c :: t =>
    if c = ',' then
      match matchClose t with
      | some (b, r) => b :: commaReplaceF fuel r
      | none => ',' :: commaReplaceF fuel t
    else c :: commaReplaceF fuel t

/-- Embedding of the global replace `text.replace(/,\s*([}\]])/g, "$1")`:
scan left to right; each match `,\s*[}\]]` is replaced by its closing
bracket, and scanning resumes after the bracket. -/
def commaReplace (l : Str) : Str := commaReplaceF l.length l

theorem commaReplaceF_congr :
    ∀ (f1 f2 : Nat) (l : Str), l.length ≤ f1 → l.length ≤ f2 →
      commaReplaceF f1 l = commaReplaceF f2 l := by
  intro f1
  induction f1 with
  | zero =>
    intro f2 l h1 _
    have : l = [] := List.length_eq_zero.mp (Nat.le_zero.mp h1)
    subst this
    cases f2 <;> rfl
  | succ f ih =>
    intro f2 l h1 h2
    cases l with
    | nil => cases f2 <;> rfl
    | cons c t =>
      cases f2 with
      | zero => simp at h2
      | succ f2' =>
        simp only [List.length_cons, Nat.succ_le_succ_iff] at h1 h2
        rcases h : matchClose t with _ | ⟨b, r⟩
        · simp only [commaReplaceF, h]
          rw [ih f2' t h1 h2]
        · have hr := matchClose_length h
          simp only [commaReplaceF, h]
          rw [ih f2' t h1 h2, ih f2' r (Nat.le_of_lt (Nat.lt_of_lt_of_le hr h1))
            (Nat.le_of_lt (Nat.lt_of_lt_of_le hr h2))]

theorem commaReplace_nil : commaReplace [] = [] := rfl

theorem commaReplace_cons (c : Char) (t : Str) :
    commaReplace (c :: t) =
      if c = ',' then
        match matchClose t with
        | some (b, r) => b :: commaReplace r
        | none => ',' :: commaReplace t
      else c :: commaReplace t := by
  show commaReplaceF (t.length + 1) (c :: t) = _
  rcases h : matchClose t with _ | ⟨b, r⟩
  · simp only [commaReplaceF, commaReplace, h]
  · have hr := matchClose_length h
    simp only [commaReplaceF, commaReplace, h]
    rw [commaReplaceF_congr t.length r.length r (Nat.le_of_lt hr) (Nat.le_refl _)]

/-- Strip a leading ```` ```json ```` or ```` ``` ```` fence, as in
`sanitizeJSON` of `server/gemini.ts`. -/
def stripStartFence (text : Str) : Str :=
  if startsWithL (("```json").data) text then text.drop 7
  else if startsWithL (("```").data) text then text.drop 3
  else text

/-- Strip a trailing ```` ``` ```` fence (`text.slice(0, -3)`), as in
`sanitizeJSON` of `server/gemini.ts`. -/
def stripEndFence (text : Str) : Str :=
  if endsWithL (("```").data) text then text.take (text.length - 3) else text

/-- Embedding of `sanitizeJSON` from `server/gemini.ts`: trim, strip a
leading ```` ```json ```` or ```` ``` ```` fence, strip a trailing
```` ``` ```` fence, trim again and remove trailing commas before
closing brackets. -/
def sanitizeJSON (raw : Str) : Str :=
  commaReplace (trimL (stripEndFence (stripStartFence (trimL raw))))

theorem dropWhile_eq_or_length_lt (p : Char → Bool) (l : Str) :
    l.dropWhile p = l ∨ (l.dropWhile p).length < l.length := by
  cases l with
  | nil => left; rfl
  | cons a t =>
    by_cases h : p a
    · right
      rw [List.dropWhile_cons_of_pos h]
      exact Nat.lt_succ_of_le (List.dropWhile_sublist p).length_le
    · left
      rw [List.dropWhile_cons_of_neg h]

theorem trimL_length_le (l : Str) : (trimL l).length ≤ l.length := by
  unfold trimL
  rw [List.length_reverse]
  calc ((l.dropWhile isJsWs).reverse.dropWhile isJsWs).length
      ≤ (l.dropWhile isJsWs).reverse.length := (List.dropWhile_sublist isJsWs).length_le
    _ = (l.dropWhile isJsWs).length := List.length_reverse _
    _ ≤ l.length := (List.dropWhile_sublist isJsWs).length_le

theorem trimL_eq_or_length_lt (l : Str) : trimL l = l ∨ (trimL l).length < l.length := by
  unfold trimL
  rcases dropWhile_eq_or_length_lt isJsWs l with h1 | h1
  · rw [h1]
    rcases dropWhile_eq_or_length_lt isJsWs l.reverse with h2 | h2
    · left
      rw [h2, List.reverse_reverse]
    · right
      rw [List.length_reverse] at h2 ⊢
      exact h2
  · right
    calc ((l.dropWhile isJsWs).reverse.dropWhile isJsWs).reverse.length
        ≤ (l.dropWhile isJsWs).reverse.length := by
          rw [List.length_reverse]
          exact (List.dropWhile_sublist isJsWs).length_le
      _ = (l.dropWhile isJsWs).length := List.length_reverse _
      _ < l.length := h1

theorem commaReplace_length_le_aux :
    ∀ (n : Nat) (l : Str), l.length ≤ n → (commaReplace l).length ≤ l.length := by
  intro n
  induction n with
  | zero =>
    intro l h
    have : l = [] := List.length_eq_zero.mp (Nat.le_zero.mp h)
    subst this
    simp [commaReplace_nil]
  | succ n ih =>
    intro l h
    cases l with
    | nil => simp [commaReplace_nil]
    | cons c t =>
      simp only [List.length_cons, Nat.succ_le_succ_iff] at h
      rw [commaReplace_cons]
      by_cases hc : c = ','
      · simp only [hc, if_true]
        rcases hm : matchClose t with _ | ⟨b, r⟩
        · simp only [List.length_cons]
          exact Nat.succ_le_succ (ih t h)
        · have hr := matchClose_length hm
          simp only [List.length_cons]
          have : (commaReplace r).length ≤ r.length :=
            ih r (Nat.le_of_lt (Nat.lt_of_lt_of_le hr h))
          omega
      · simp only [hc, if_false, List.length_cons]
        exact Nat.succ_le_succ (ih t h)

theorem commaReplace_length_le (l : Str) : (commaReplace l).length ≤ l.length :=
  commaReplace_length_le_aux l.length l (Nat.le_refl _)

theorem commaReplace_eq_or_length_lt_aux :
    ∀ (n : Nat) (l : Str), l.length ≤ n →
      commaReplace l = l ∨ (commaReplace l).length < l.length := by
  intro n
  induction n with
  | zero =>
    intro l h
    have : l = [] := List.length_eq_zero.mp (Nat.le_zero.mp h)
    subst this
    left
    rfl
  | succ n ih =>
    intro l h
    cases l with
    | nil => left; rfl
    | cons c t =>
      simp only [List.length_cons, Nat.succ_le_succ_iff] at h
      rw [commaReplace_cons]
      by_cases hc : c = ','
      · simp only [hc, if_true]
        rcases hm : matchClose t with _ | ⟨b, r⟩
        · rcases ih t h with h2 | h2
          · left
            rw [h2]
          · right
            simp only [List.length_cons]
            omega
        · have hr := matchClose_length hm
          right
          have : (commaReplace r).length ≤ r.length :=
            commaReplace_length_le_aux n r (Nat.le_of_lt (Nat.lt_of_lt_of_le hr h))
          simp only [List.length_cons]
          omega
      · simp only [hc, if_false]
        rcases ih t h with h2 | h2
        · left
          rw [h2]
        · right
          simp only [List.length_cons]
          omega

theorem commaReplace_eq_or_length_lt (l : Str) :
    commaReplace l = l ∨ (commaReplace l).length < l.length :=
  commaReplace_eq_or_length_lt_aux l.length l (Nat.le_refl _)

theorem startsWithL_iff (p l : Str) : startsWithL p l = true ↔ p <+: l := by
  simp [startsWithL, List.isPrefixOf_iff_prefix]

theorem endsWithL_iff (p l : Str) : endsWithL p l = true ↔ p <:+ l := by
  simp [endsWithL, List.isSuffixOf_iff_suffix]

theorem startsWithL_json_of_fence (s : Str)
    (h : startsWithL (("```").data) s = false) :
    startsWithL (("```json").data) s = false := by
  by_contra hj
  have hj2 : startsWithL (("```json").data) s = true := by
    cases hh : startsWithL (("```json").data) s
    · exact absurd hh hj
    · rfl
  have hp : ("```json").data <+: s := (startsWithL_iff _ _).mp hj2
  have h3 : ("```").data <+: ("```json").data := by decide
  have : startsWithL (("```").data) s = true := (startsWithL_iff _ _).mpr (h3.trans hp)
  rw [h] at this
  exact Bool.false_ne_true this

theorem stripStartFence_length_le (x : Str) : (stripStartFence x).length ≤ x.length := by
  unfold stripStartFence
  split
  · rw [List.length_drop]; omega
  · split
    · rw [List.length_drop]; omega
    · exact Nat.le_refl _

theorem stripEndFence_length_le (x : Str) : (stripEndFence x).length ≤ x.length := by
  unfold stripEndFence
  split
  · exact (List.take_sublist _ _).length_le
  · exact Nat.le_refl _

theorem sanitizeJSON_length_le_stripStart (s : Str) :
    (sanitizeJSON s).length ≤ (stripStartFence (trimL s)).length := by
  unfold sanitizeJSON
  calc (commaReplace (trimL (stripEndFence (stripStartFence (trimL s))))).length
      ≤ (trimL (stripEndFence (stripStartFence (trimL s)))).length :=
        commaReplace_length_le _
    _ ≤ (stripEndFence (stripStartFence (trimL s))).length := trimL_length_le _
    _ ≤ (stripStartFence (trimL s)).length := stripEndFence_length_le _

theorem sanitizeJSON_length_le_trim (s : Str) :
    (sanitizeJSON s).length ≤ (trimL s).length :=
  Nat.le_trans (sanitizeJSON_length_le_stripStart s) (stripStartFence_length_le _)

/-- Characterisation of the fixed points of `sanitizeJSON`: a string is
unchanged by one sanitisation pass exactly when it is already trimmed,
carries no leading or trailing fence, and has no `,\s*[}\]]` pattern. -/
theorem sanitizeJSON_fixed_iff (s : Str) :
    sanitizeJSON s = s ↔
      (trimL s = s ∧ startsWithL (("```").data) s = false ∧
       endsWithL (("```").data) s = false ∧ commaReplace s = s) := by
  constructor
  · intro h
    have h1 : trimL s = s := by
      rcases trimL_eq_or_length_lt s with h1 | h1
      · exact h1
      · exfalso
        have hlt : (sanitizeJSON s).length < s.length :=
          Nat.lt_of_le_of_lt (sanitizeJSON_length_le_trim s) h1
        rw [h] at hlt
        exact Nat.lt_irrefl _ hlt
    have h2 : startsWithL (("```").data) s = false := by
      cases hs : startsWithL (("```").data) s
      · rfl
      · exfalso
        have hpre : ("```").data <+: s := (startsWithL_iff _ _).mp hs
        have h3le : 3 ≤ s.length := hpre.length_le
        have hstrip : (stripStartFence s).length ≤ s.length - 3 := by
          unfold stripStartFence
          by_cases hcond : startsWithL (("```json").data) s = true
          · have h7 : 7 ≤ s.length := ((startsWithL_iff _ _).mp hcond).length_le
            rw [if_pos hcond, List.length_drop]
            omega
          · rw [if_neg hcond, if_pos hs, List.length_drop]
        have hlt : (sanitizeJSON s).length < s.length := by
          have := sanitizeJSON_length_le_stripStart s
          rw [h1] at this
          omega
        rw [h] at hlt
        exact Nat.lt_irrefl _ hlt
    have hjson : startsWithL (("```json").data) s = false := startsWithL_json_of_fence s h2
    have hss : stripStartFence s = s := by
      unfold stripStartFence
      rw [hjson, h2]
      simp
    have h3 : endsWithL (("```").data) s = false := by
      cases hs : endsWithL (("```").data) s
      · rfl
      · exfalso
        have hsuf : ("```").data <:+ s := (endsWithL_iff _ _).mp hs
        have h3le : 3 ≤ s.length := hsuf.length_le
        have hse : (stripEndFence s).length = s.length - 3 := by
          unfold stripEndFence
          rw [if_pos hs, List.length_take]
          omega
        have hlt : (sanitizeJSON s).length < s.length := by
          unfold sanitizeJSON
          rw [h1, hss]
          have hc1 : (commaReplace (trimL (stripEndFence s))).length ≤
              (stripEndFence s).length :=
            Nat.le_trans (commaReplace_length_le _) (trimL_length_le _)
          omega
        rw [h] at hlt
        exact Nat.lt_irrefl _ hlt
    have hes : stripEndFence s = s := by
      unfold stripEndFence
      rw [h3]
      simp
    have h4 : commaReplace s = s := by
      have : sanitizeJSON s = commaReplace s := by
        unfold sanitizeJSON
        rw [h1, hss, hes, h1]
      rw [this.symm]
      exact h
    exact ⟨h1, h2, h3, h4⟩
  · rintro ⟨h1, h2, h3, h4⟩
    have hjson : startsWithL (("```json").data) s = false := startsWithL_json_of_fence s h2
    unfold sanitizeJSON stripStartFence stripEndFence
    rw [h1, hjson, h2]
    simp only [Bool.false_eq_true, if_false]
    rw [h3]
    simp only [Bool.false_eq_true, if_false]
    rw [h1, h4]

/-- C9 (amended): `sanitizeJSON` is not idempotent in general; a second
pass changes nothing exactly when the first pass's output is already
trimmed, carries no leading or trailing ```` ``` ```` fence, and is
unchanged by the `,\s*[}\]]` comma-removal replace. -/
theorem sanitizeJSON_idem_iff (s : Str) :
    sanitizeJSON (sanitizeJSON s) = sanitizeJSON s ↔
      (trimL (sanitizeJSON s) = sanitizeJSON s ∧
       startsWithL (("```").data) (sanitizeJSON s) = false ∧
       endsWithL (("```").data) (sanitizeJSON s) = false ∧
       commaReplace (sanitizeJSON s) = sanitizeJSON s) :=
  sanitizeJSON_fixed_iff (sanitizeJSON s)

/-- C9 (counterexample): `sanitizeJSON` is not idempotent. On the input
`",,]"` the first pass yields `",]"` (the global replace does not rescan
to the left of a replacement) and the second pass yields `"]"`. -/
theorem sanitizeJSON_not_idempotent :
    sanitizeJSON (sanitizeJSON ((",,]").data)) ≠ sanitizeJSON ((",,]").data) := by
  decide

/-- JSON values as produced by `JSON.parse`. Numbers keep their source
text: no claim in this development depends on numeric values, so the
embedding leaves them uninterpreted. -/
inductive JValue where
  | jnull : JValue
  | jbool : Bool → JValue
  | jnum : Str → JValue
  | jstr : Str → JValue
  | jarr : List JValue → JValue
  | jobj : List (Str × JValue) → JValue

/-- Whitespace accepted between JSON tokens by `JSON.parse` (RFC 8259). -/
def isJsonWs (c : Char) : Bool := c == ' ' || c == '\t' || c == '\n' || c == '\r'

/-- Skip insignificant JSON whitespace. -/
def skipJWs (l : Str) : Str := l.dropWhile isJsonWs

/-- Value of a hexadecimal digit. -/
def hexVal (c : Char) : Option Nat :=
  if '0' ≤ c ∧ c ≤ '9' then some (c.toNat - 48)
  else if 'a' ≤ c ∧ c ≤ 'f' then some (c.toNat - 87)
  else if 'A' ≤ c ∧ c ≤ 'F' then some (c.toNat - 55)
  else none

/-- Parse the body of a JSON string (the opening quote already consumed),
returning the decoded characters and the input after the closing quote. -/
def parseJStr : Str → Option (Str × Str)
  | [] => none
  | c :: t =>
    if c = '"' then some ([], t)
    else if c = '\\' then
      match t with
      | [] => none
      | e :: t2 =>
        if e = '"' ∨ e = '\\' ∨ e = '/' then
          (parseJStr t2).map (fun p => (e :: p.1, p.2))
        else if e = 'b' then (parseJStr t2).map (fun p => ('\x08' :: p.1, p.2))
        else if e = 'f' then (parseJStr t2).map (fun p => ('\x0c' :: p.1, p.2))
        else if e = 'n' then (parseJStr t2).map (fun p => ('\n' :: p.1, p.2))
        else if e = 'r' then (parseJStr t2).map (fun p => ('\r' :: p.1, p.2))
        else if e = 't' then (parseJStr t2).map (fun p => ('\t' :: p.1, p.2))
        else if e = 'u' then
          match t2 with
          | h1 :: h2 :: h3 :: h4 :: t3 =>
            match hexVal h1, hexVal h2, hexVal h3, hexVal h4 with
            | some a, some b, some c2, some d =>
              (parseJStr t3).map
                (fun p => (Char.ofNat (a * 4096 + b * 256 + c2 * 16 + d) :: p.1, p.2))
            | _, _, _, _ => none
          | _ => none
        else none
    else if c.toNat < 32 then none
    else (parseJStr t).map (fun p => (c :: p.1, p.2))

/-- Parse a JSON number token (sign, integer part, optional fraction and
exponent), returning its raw text and the remaining input. -/
def parseJNum (l : Str) : Option (Str × Str) :=
  let sign : Str × Str := match l with
    | '-' :: t => (['-'], t)
    | _ => ([], l)
  let intRes : Option (Str × Str) := match sign.2 with
    | '0' :: t => some (['0'], t)
    | c :: t =>
      if '1' ≤ c ∧ c ≤ '9' then
        some (c :: t.takeWhile (fun d => '0' ≤ d && d ≤ '9'),
              t.dropWhile (fun d => '0' ≤ d && d ≤ '9'))
      else none
    | [] => none
  match intRes with
  | none => none
  | some (ip, r1) =>
    let fracRes : Option (Str × Str) := match r1 with
      | '.' :: r2 =>
        let ds := r2.takeWhile (fun d => '0' ≤ d && d ≤ '9')
        if ds = [] then none
        else some ('.' :: ds, r2.dropWhile (fun d => '0' ≤ d && d ≤ '9'))
      | _ => some ([], r1)
    match fracRes with
    | none => none
    | some (fp, r3) =>
      let expRes : Option (Str × Str) := match r3 with
        | e :: r4 =>
          if e = 'e' ∨ e = 'E' then
            let (es, r5) : Str × Str := match r4 with
              | '+' :: r5 => (['+'], r5)
              | '-' :: r5 => (['-'], r5)
              | _ => ([], r4)
            let ds := r5.takeWhile (fun d => '0' ≤ d && d ≤ '9')
            if ds = [] then none
            else some (e :: (es ++ ds), r5.dropWhile (fun d => '0' ≤ d && d ≤ '9'))
          else some ([], r3)
        | [] => some ([], r3)
      match expRes with
      | none => none
      | some (ep, r6) => some (sign.1 ++ ip ++ fp ++ ep, r6)

mutual

/-- Fuelled recursive-descent parser for a JSON value; the fuel is always
instantiated with more than the input length, which bounds the nesting
depth, so it never runs out on real inputs. -/
def parseVal : Nat → Str → Option (JValue × Str)
  | 0, _ => none
  | fuel + 1, input =>
    match skipJWs input with
    | [] => none
    | c :: t =>
      if c = '"' then (parseJStr t).map (fun p => (JValue.jstr p.1, p.2))
      else if c = '\x7b' then
        match skipJWs t with
        | '\x7d' :: r => some (JValue.jobj [], r)
        | r => (parseMembers fuel r).map (fun p => (JValue.jobj p.1, p.2))
      else if c = '[' then
        match skipJWs t with
        | ']' :: r => some (JValue.jarr [], r)
        | r => (parseElems fuel r).map (fun p => (JValue.jarr p.1, p.2))
      else if c = 't' then
        if ("rue").data.isPrefixOf t then some (JValue.jbool true, t.drop 3) else none
      else if c = 'f' then
        if ("alse").data.isPrefixOf t then some (JValue.jbool false, t.drop 4) else none
      else if c = 'n' then
        if ("ull").data.isPrefixOf t then some (JValue.jnull, t.drop 3) else none
      else if c = '-' ∨ ('0' ≤ c ∧ c ≤ '9') then
        (parseJNum (c :: t)).map (fun p => (JValue.jnum p.1, p.2))
      else none

/-- Parse the members of a JSON object after at least one member is
required (the empty-object case is handled by `parseVal`). -/
def parseMembers : Nat → Str → Option (List (Str × JValue) × Str)
  | 0, _ => none
  | fuel + 1, input =>
    match skipJWs input with
    | '"' :: t =>
      match parseJStr t with
      | none => none
      | some (key, r1) =>
        match skipJWs r1 with
        | ':' :: r2 =>
          match parseVal fuel r2 with
          | none => none
          | some (v, r3) =>
            match skipJWs r3 with
            | ',' :: r4 => (parseMembers fuel r4).map (fun p => ((key, v) :: p.1, p.2))
            | '\x7d' :: r4 => some ([(key, v)], r4)
            | _ => none
        | _ => none
    | _ => none

/-- Parse the elements of a JSON array after at least one element is
required (the empty-array case is handled by `parseVal`). -/
def parseElems : Nat → Str → Option (List JValue × Str)
  | 0, _ => none
  | fuel + 1, input =>
    match parseVal fuel input with
    | none => none
    | some (v, r1) =>
      match skipJWs r1 with
      | ',' :: r2 => (parseElems fuel r2).map (fun p => (v :: p.1, p.2))
      | ']' :: r2 => some ([v], r2)
      | _ => none

end

/-- Embedding of `JSON.parse`: parse one value and require that only
whitespace remains. -/
def jsonParse (s : Str) : Option JValue :=
  match parseVal (s.length + 1) s with
  | some (v, rest) => if skipJWs rest = [] then some v else none
  | none => none

/-- Lookup of an object property; with duplicate keys `JSON.parse` keeps
the last occurrence, so the reversed list is searched. -/
def lookupField (fs : List (Str × JValue)) (key : Str) : Option JValue :=
  (fs.reverse.find? (fun p => p.1 == key)).map (fun p => p.2)

/-- Property access `v[key]` on a JSON value that is not `null`: objects
use their fields, every other value has no such property (`undefined`,
modelled as `none`). -/
def jget : JValue → Str → Option JValue
  | JValue.jobj fs, key => lookupField fs key
  | _, _ => none

/-- Does the digit part of a JSON number token denote zero? -/
def numIsZero (raw : Str) : Bool :=
  let noSign : Str := match raw with
    | '-' :: t => t
    | _ => raw
  (noSign.takeWhile (fun c => !(c == 'e' || c == 'E'))).all (fun c => c == '0' || c == '.')

/-- JavaScript falsiness of a JSON value (`null`, `false`, `0`, `""`). -/
def jsFalsy : JValue → Bool
  | JValue.jnull => true
  | JValue.jbool b => !b
  | JValue.jstr s => s.isEmpty
  | JValue.jnum raw => numIsZero raw
  | JValue.jarr _ => false
  | JValue.jobj _ => false

/-- Embedding of `x || d`: an absent (`undefined`) or falsy value is
replaced by the default. -/
def jOrElse (v : Option JValue) (d : JValue) : JValue :=
  match v with
  | some v => if jsFalsy v then d else v
  | none => d

/-- Embedding of `parsed.k1?.k2` for a `parsed` that is not `null`:
access `k1`, then guard the second access with optional chaining. -/
def jchain (parsed : JValue) (k1 k2 : Str) : Option JValue :=
  match jget parsed k1 with
  | none => none
  | some JValue.jnull => none
  | some v => jget v k2

/-- Embedding of the salvage regex `rawText.match(/\{[\s\S]*\}/)`: the
match, when it exists, runs from the first `{` to the last `}` after it. -/
def salvage (s : Str) : Option Str :=
  let fromBrace := s.dropWhile (fun c => !(c == '\x7b'))
  match fromBrace with
  | [] => none
  | _ :: _ =>
    match fromBrace.reverse.dropWhile (fun c => !(c == '\x7d')) with
    | [] => none
    | rev => some rev.reverse

/-- Error message thrown by `analyzeRepository` when every parse attempt
fails. -/
def tooLargeMsg : Str :=
  ("The repository is too large for a complete analysis. Try analyzing a smaller repository or specific components.").data

/-- Parse cascade of `analyzeRepository` (`server/gemini.ts`, lines
167-208): `JSON.parse` on the raw text, then on the sanitized text, then
on the salvaged `\{[\s\S]*\}` match; when everything fails the function
throws the too-large error. -/
def parseModelResponse (raw : Str) : Except Str JValue :=
  match jsonParse raw with
  | some v => Except.ok v
  | none =>
    match jsonParse (sanitizeJSON raw) with
    | some v => Except.ok v
    | none =>
      match salvage raw with
      | some sub =>
        match jsonParse sub with
        | some v => Except.ok v
        | none => Except.error tooLargeMsg
      | none => Except.error tooLargeMsg

/-- Repository metadata handed to `analyzeRepository` (the `repoInfo`
object built by `fetchRepoInfo`). -/
structure RepoInfo where
  name : Str
  owner : Str
  description : Str
  stars : Nat
  forks : Nat
  language : Str
  url : Str
deriving DecidableEq

/-- One entry of the `languages` array (`fetchLanguages` output). -/
structure LangStat where
  name : Str
  percentage : Nat
deriving DecidableEq

/-- One fetched key file (`fetchKeyFiles` output). -/
structure KeyFile where
  path : Str
  content : Str
deriving DecidableEq

/-- Result object returned by `analyzeRepository`. The fields filled from
the model's JSON are untyped JSON values, exactly as in the untyped
JavaScript construction. -/
structure AnalysisResultM where
  repoInfo : RepoInfo
  techLanguages : JValue
  techFrameworks : JValue
  techLibraries : JValue
  techBuildTools : JValue
  techTesting : JValue
  techDeployment : JValue
  apiEndpoints : JValue
  frontendBackendFlows : JValue
  databaseMapping : JValue
  externalServices : JValue
  envVariables : JValue
  apiVersioning : JValue
  dependencyGraph : JValue
  contributionSuggestions : JValue
  readmeArchitecture : Str
  mermaidDiagram : Str

/-- JSON encoding of the typed `languages` argument, used where the code
places that array into the result object. -/
def langsToJson (langs : List LangStat) : JValue :=
  JValue.jarr (langs.map (fun L =>
    JValue.jobj [(("name").data, JValue.jstr L.name),
                 (("percentage").data, JValue.jnum (Nat.repr L.percentage).data)]))

/-- Default `databaseMapping` object used when the model output lacks
one. -/
def defaultDbMapping : JValue :=
  JValue.jobj [(("database").data, JValue.jstr ("None").data),
               (("orm").data, JValue.jstr ("None").data),
               (("models").data, JValue.jarr []),
               (("services").data, JValue.jarr [])]

/-- Message of the `TypeError` thrown when `parsed` is `null` and the
result construction reads `parsed.techStack`. -/
def typeErrorMsg : Str :=
  ("Cannot read properties of null (reading \x27techStack\x27)").data

/-- Discriminator for the JSON `null` value. -/
def isJNull : JValue → Bool
  | JValue.jnull => true
  | _ => false

/-- Embedding of the result construction of `analyzeRepository`
(`server/gemini.ts`, lines 210-235). A `null` parse result makes the
property accesses throw. -/
def buildAnalysisResult (ri : RepoInfo) (languages : List LangStat) (parsed : JValue) :
    Except Str AnalysisResultM :=
  if isJNull parsed then Except.error typeErrorMsg
  else
    Except.ok
      { repoInfo := ri
        techLanguages :=
          if languages.length > 0 then langsToJson languages
          else jOrElse (jchain parsed (("techStack").data) (("languages").data))
            (JValue.jarr [])
        techFrameworks :=
          jOrElse (jchain parsed (("techStack").data) (("frameworks").data)) (JValue.jarr [])
        techLibraries :=
          jOrElse (jchain parsed (("techStack").data) (("libraries").data)) (JValue.jarr [])
        techBuildTools :=
          jOrElse (jchain parsed (("techStack").data) (("buildTools").data)) (JValue.jarr [])
        techTesting :=
          jOrElse (jchain parsed (("techStack").data) (("testing").data)) (JValue.jarr [])
        techDeployment :=
          jOrElse (jchain parsed (("techStack").data) (("deployment").data)) (JValue.jarr [])
        apiEndpoints := jOrElse (jget parsed (("apiEndpoints").data)) (JValue.jarr [])
        frontendBackendFlows :=
          jOrElse (jget parsed (("frontendBackendFlows").data)) (JValue.jarr [])
        databaseMapping := jOrElse (jget parsed (("databaseMapping").data)) defaultDbMapping
        externalServices := jOrElse (jget parsed (("externalServices").data)) (JValue.jarr [])
        envVariables := jOrElse (jget parsed (("envVariables").data)) (JValue.jarr [])
        apiVersioning := jOrElse (jget parsed (("apiVersioning").data)) (JValue.jarr [])
        dependencyGraph := jOrElse (jget parsed (("dependencyGraph").data)) (JValue.jarr [])
        contributionSuggestions :=
          jOrElse (jget parsed (("contributionSuggestions").data)) (JValue.jarr [])
        readmeArchitecture := []
        mermaidDiagram := [] }

/-- Lowercase hexadecimal digit. -/
def hexDigitChar (n : Nat) : Char :=
  if n < 10 then Char.ofNat (48 + n) else Char.ofNat (87 + n)

/-- Escaping of one character by `JSON.stringify` inside a string
literal. -/
def escapeJsonChar (c : Char) : Str :=
  if c = '"' then ['\\', '"']
  else if c = '\\' then ['\\', '\\']
  else if c = '\x08' then ['\\', 'b']
  else if c = '\t' then ['\\', 't']
  else if c = '\n' then ['\\', 'n']
  else if c = '\x0c' then ['\\', 'f']
  else if c = '\r' then ['\\', 'r']
  else if c.toNat < 32 then
    ['\\', 'u', '0', '0', hexDigitChar (c.toNat / 16), hexDigitChar (c.toNat % 16)]
  else [c]

/-- `JSON.stringify` of a string value. -/
def jsonStrLit (s : Str) : Str :=
  '"' :: (s.map escapeJsonChar).flatten ++ ['"']

/-- Join a list of strings with a separator (`Array.prototype.join`). -/
def joinSep (sep : Str) : List Str → Str
  | [] => []
  | [x] => x
  | x :: y :: ys => x ++ sep ++ joinSep sep (y :: ys)

/-- `JSON.stringify(languages)` for the typed language array. -/
def stringifyLangs (langs : List LangStat) : Str :=
  ('[' :: joinSep ([',']) (langs.map (fun L =>
    ("\x7b\"name\":").data ++ jsonStrLit L.name ++ (",\"percentage\":").data ++
      (Nat.repr L.percentage).data ++ ("\x7d").data))) ++ [']']

/-- One `--- FILE: ... ---` block of the prompt. -/
def keyFileBlock (f : KeyFile) : Str :=
  ("--- FILE: ").data ++ f.path ++ (" ---\n").data ++ f.content ++ ("\n--- END FILE ---").data

/-- The `keyFilesStr` prompt fragment. -/
def keyFilesJoin (kfs : List KeyFile) : Str :=
  joinSep (("\n\n").data) (kfs.map keyFileBlock)

/-- The literal `KEY FILES:` (left end of the retry-replace regex). -/
def keyFilesMarker : Str := ("KEY FILES:").data

/-- The literal `Provide a detailed` (right end of the retry-replace
regex). -/
def provideMarker : Str := ("Provide a detailed").data

/-- Prompt text that precedes the `KEY FILES:` section: header,
repository metadata and the file tree. -/
def promptPre (ri : RepoInfo) (langs : List LangStat) (tree : List Str) : Str :=
  ("You are a senior software architect analyzing a GitHub repository. Analyze the following repository and provide a comprehensive JSON analysis.\n\nREPOSITORY: ").data ++
    ri.owner ++ ("/").data ++ ri.name ++ ("\nDESCRIPTION: ").data ++ ri.description ++
    ("\nPRIMARY LANGUAGE: ").data ++ ri.language ++ ("\nLANGUAGES: ").data ++
    stringifyLangs langs ++ ("\n\nFILE TREE:\n").data ++ joinSep (("\n").data) tree
/-- Constant tail of the analysis prompt: everything of the template
after the words `Provide a detailed` (structure description and rules),
transcribed from `server/gemini.ts`. -/
def promptTail : Str :=
  (" JSON analysis with the following structure. Be thorough and accurate based on the actua").data ++
  ("l code:\n\n\x7b\n  \"techStack\": \x7b\n    \"languages\": [\x7b\"name\": \"string\", \"").data ++
  ("percentage\": number\x7d],\n    \"frameworks\": [\"string\"],\n    \"libraries\": [\"str").data ++
  ("ing\"],\n    \"buildTools\": [\"string\"],\n    \"testing\": [\"string\"],\n    \"deploy").data ++
  ("ment\": [\"string\"]\n  \x7d,\n  \"apiEndpoints\": [\n    \x7b\n      \"method\": \"GET|").data ++
  ("POST|PUT|DELETE|PATCH\",\n      \"path\": \"/api/...\",\n      \"file\": \"path/to/file").data ++
  ("\",\n      \"group\": \"ServiceName or ControllerName\",\n      \"description\": \"What ").data ++
  ("this endpoint does\",\n      \"dependencies\": [\"other endpoints or services it calls\"").data ++
  ("],\n      \"parameters\": [\"param1\", \"param2\"],\n      \"responseType\": \"JSON obje").data ++
  ("ct description\"\n    \x7d\n  ],\n  \"frontendBackendFlows\": [\n    \x7b\n      \"front").data ++
  ("endFile\": \"path/to/frontend/file\",\n      \"frontendComponent\": \"ComponentName\",\n").data ++
  ("      \"apiCalls\": [\x7b\"method\": \"GET\", \"path\": \"/api/...\", \"purpose\": \"des").data ++
  ("cription\"\x7d]\n    \x7d\n  ],\n  \"databaseMapping\": \x7b\n    \"database\": \"Postgr").data ++
  ("eSQL|MongoDB|MySQL|SQLite|None\",\n    \"orm\": \"Drizzle|Prisma|TypeORM|Mongoose|SQLAlc").data ++
  ("hemy|None\",\n    \"models\": [\x7b\"name\": \"ModelName\", \"table\": \"table_name\", ").data ++
  ("\"file\": \"path/to/file\"\x7d],\n    \"services\": [\"services that interact with DB\"]").data ++
  ("\n  \x7d,\n  \"externalServices\": [\n    \x7b\n      \"name\": \"ServiceName\",\n      ").data ++
  ("\"type\": \"auth|payment|cloud|ai|email|storage|monitoring|other\",\n      \"file\": \"p").data ++
  ("ath/to/file\",\n      \"description\": \"How it\x27s used\"\n    \x7d\n  ],\n  \"envVari").data ++
  ("ables\": [\n    \x7b\n      \"name\": \"ENV_VAR_NAME\",\n      \"file\": \"path/to/file").data ++
  ("\",\n      \"description\": \"What it\x27s used for\",\n      \"required\": true\n    ").data ++
  ("\x7d\n  ],\n  \"apiVersioning\": [\n    \x7b\n      \"version\": \"v1\",\n      \"basePa").data ++
  ("th\": \"/api/v1\",\n      \"endpoints\": 5\n    \x7d\n  ],\n  \"dependencyGraph\": [\n  ").data ++
  ("  \x7b\n      \"source\": \"/api/endpoint1 or ServiceName\",\n      \"target\": \"/api/e").data ++
  ("ndpoint2 or ExternalService\",\n      \"type\": \"calls|depends|imports\"\n    \x7d\n  ]").data ++
  (",\n  \"contributionSuggestions\": [\n    \x7b\n      \"title\": \"Short title\",\n      ").data ++
  ("\"description\": \"Detailed description of what to contribute\",\n      \"difficulty\": ").data ++
  ("\"beginner|intermediate|advanced\",\n      \"files\": [\"relevant/files\"],\n      \"rea").data ++
  ("son\": \"Why this is a good contribution\"\n    \x7d\n  ]\n\x7d\n\nRules:\n- Only includ").data ++
  ("e endpoints, services, and dependencies that you can actually find evidence for in the c").data ++
  ("ode\n- Group API endpoints by their controller or service module\n- For frontendBackendF").data ++
  ("lows, trace actual API calls from frontend components\n- For contributionSuggestions, su").data ++
  ("ggest 3-5 practical areas. Look for: missing tests, documentation gaps, error handling i").data ++
  ("mprovements, feature additions based on TODOs/FIXMEs\n- If no API versioning is found, r").data ++
  ("eturn an empty array\n- If no database is found, set database to \"None\"\n- Be specific").data ++
  (" with file paths from the actual file tree\n- Return ONLY valid JSON, no markdown format").data ++
  ("ting").data

/-- The full analysis prompt of `analyzeRepository`. -/
def mkPrompt (ri : RepoInfo) (langs : List LangStat) (tree : List Str)
    (kfs : List KeyFile) : Str :=
  promptPre ri langs tree ++ ("\n\n").data ++ keyFilesMarker ++ ("\n").data ++
    keyFilesJoin kfs ++ ("\n\n").data ++ provideMarker ++ promptTail

/-- Index of the first occurrence of `pat` in a string, if any. -/
def findFirst (pat : Str) : Str → Option Nat
  | [] => if pat.isPrefixOf ([] : Str) then some 0 else none
  | c :: t => if pat.isPrefixOf (c :: t) then some 0 else (findFirst pat t).map (· + 1)

/-- ECMAScript GetSubstitution for a string replacement with no capture
groups: a doubled dollar yields one dollar, dollar-ampersand the matched
text, dollar-backquote the text before the match, dollar-quote the text
after the match; any other dollar (including a dollar before a digit,
since there are no groups) stays literal. Char codes 96 and 39 are the
backquote and the quote. -/
def getSubstitution (matched before after : Str) : Str → Str
  | [] => []
  | c :: rest =>
    if c = '$' then
      match rest with
      | [] => ['$']
      | d :: rest2 =>
        if d = '$' then '$' :: getSubstitution matched before after rest2
        else if d = '&' then matched ++ getSubstitution matched before after rest2
        else if d = Char.ofNat 96 then before ++ getSubstitution matched before after rest2
        else if d = Char.ofNat 39 then after ++ getSubstitution matched before after rest2
        else '$' :: d :: getSubstitution matched before after rest2
    else c :: getSubstitution matched before after rest

/-- Embedding of the single (non-global) replace
`prompt.replace(/KEY FILES:[\s\S]*?Provide a detailed/, repl)` with a
string replacement: the match starts at the first occurrence of `pat1`
and, lazily, ends at the first following occurrence of `pat2`, and the
replacement string undergoes GetSubstitution against that match. If
`pat1` never occurs, or no `pat2` occurs after it (in which case no
later start can succeed either), the string is unchanged. -/
def lazyReplace (pat1 pat2 repl s : Str) : Str :=
  match findFirst pat1 s with
  | none => s
  | some i =>
    match findFirst pat2 (List.drop (i + pat1.length) s) with
    | some k =>
      List.take i s ++
        getSubstitution ((List.drop i s).take (pat1.length + k + pat2.length))
          (List.take i s) (List.drop (i + (pat1.length + k + pat2.length)) s) repl ++
        List.drop (i + (pat1.length + k + pat2.length)) s
    | none => s

/-- A Gemini `generateContent` response: the optional `text` and the
optional finish reason of the first candidate. -/
structure GenResp where
  text : Option Str
  finishReason : Option Str
deriving DecidableEq

/-- Embedding of `response.text || "{}"` (an absent or empty text falls
back to `"{}"`). -/
def respText (r : GenResp) : Str :=
  match r.text with
  | some t => if t = [] then ("\x7b\x7d").data else t
  | none => ("\x7b\x7d").data

/-- The `MAX_TOKENS` finish reason. -/
def maxTokensStr : Str := ("MAX_TOKENS").data

/-- Replacement string used on retry:
`` `KEY FILES:\n${reducedKeyFilesStr}\n\nProvide a detailed` ``. -/
def reducedReplacement (kfs : List KeyFile) : Str :=
  keyFilesMarker ++ ("\n").data ++ keyFilesJoin kfs ++ ("\n\n").data ++ provideMarker

/-- Parse cascade followed by result construction: the body of
`analyzeRepository` after the model call(s). -/
def runAnalysis (ri : RepoInfo) (langs : List LangStat) (raw : Str) :
    Except Str AnalysisResultM :=
  match parseModelResponse raw with
  | Except.error e => Except.error e
  | Except.ok v => buildAnalysisResult ri langs v

/-- Observable outcome of one `analyzeRepository` invocation: the result
(or thrown error), the number of model calls, and the prompts used. -/
structure AnalyzeOut where
  result : Except Str AnalysisResultM
  calls : Nat
  prompt1 : Str
  prompt2 : Option Str

/-- Embedding of `analyzeRepository` (`server/gemini.ts`): build the
prompt, call the model, retry once with the first `ceil(n/2)` key files
spliced in by the lazy replace when the response was truncated and more
than 5 key files were supplied, then parse and assemble the result.
`resp1`/`resp2` are the oracle outcomes of the two potential model
calls. -/
def analyzeRepositoryM (ri : RepoInfo) (tree : List Str) (keyFiles : List KeyFile)
    (langs : List LangStat) (resp1 resp2 : Except Str GenResp) : AnalyzeOut :=
  let p1 := mkPrompt ri langs tree keyFiles
  match resp1 with
  | Except.error e => { result := Except.error e, calls := 1, prompt1 := p1, prompt2 := none }
  | Except.ok r1 =>
    if r1.finishReason = some maxTokensStr ∧ keyFiles.length > 5 then
      let reduced := keyFiles.take ((keyFiles.length + 1) / 2)
      let p2 := lazyReplace keyFilesMarker provideMarker (reducedReplacement reduced) p1
      match resp2 with
      | Except.error e =>
        { result := Except.error e, calls := 2, prompt1 := p1, prompt2 := some p2 }
      | Except.ok r2 =>
        { result := runAnalysis ri langs (respText r2), calls := 2, prompt1 := p1,
          prompt2 := some p2 }
    else
      { result := runAnalysis ri langs (respText r1), calls := 1, prompt1 := p1,
        prompt2 := none }

theorem isPrefixOf_false_of_not {pat l : Str} (h : ¬ pat <+: l) :
    pat.isPrefixOf l = false := by
  rw [Bool.eq_false_iff]
  intro hb
  exact h (List.isPrefixOf_iff_prefix.mp hb)

theorem not_prefix_cons {pat : Str} {c : Char} {Y : Str}
    (hne : pat ≠ []) (hc : c ∉ pat) : ¬ pat <+: (c :: Y) := by
  intro hp
  cases pat with
  | nil => exact hne rfl
  | cons p0 pt =>
    rw [List.cons_prefix_cons] at hp
    exact hc (hp.1 ▸ List.mem_cons_self p0 pt)

theorem prefix_append_cons {pat X Y : Str} {c : Char}
    (h : pat <+: X ++ c :: Y) : pat <:+: X ∨ c ∈ pat := by
  by_cases hlen : pat.length ≤ X.length
  · left
    have h1 : pat = (X ++ c :: Y).take pat.length := List.prefix_iff_eq_take.mp h
    rw [List.take_append_of_le_length hlen] at h1
    have h2 : pat <+: X := by
      rw [h1]
      exact List.take_prefix _ _
    exact h2.isInfix
  · right
    obtain ⟨t, ht⟩ := h
    have hlt : X.length < pat.length := Nat.lt_of_not_le hlen
    have hi : X.length < (pat ++ t).length := by
      rw [ht]
      simp
    have hx : X.length < (X ++ c :: Y).length := by simp
    have e1 : (pat ++ t)[X.length] = (X ++ c :: Y)[X.length] :=
      List.getElem_of_eq ht hi
    have e2 : (X ++ c :: Y)[X.length] = c := by
      rw [List.getElem_append_right (Nat.le_refl _)]
      simp
    have e3 : (pat ++ t)[X.length] = pat[X.length] :=
      List.getElem_append_left hlt
    have e4 : pat[X.length] = c := e3.symm.trans (e1.trans e2)
    exact e4 ▸ List.getElem_mem _

theorem findFirst_cons_no_match {pat : Str} {c : Char} {t : Str}
    (h : ¬ pat <+: (c :: t)) :
    findFirst pat (c :: t) = (findFirst pat t).map (· + 1) := by
  have hb := isPrefixOf_false_of_not h
  simp only [findFirst, hb, Bool.false_eq_true, if_false]

theorem findFirst_self_append (pat R : Str) (hne : pat ≠ []) :
    findFirst pat (pat ++ R) = some 0 := by
  have h : pat.isPrefixOf (pat ++ R) = true :=
    List.isPrefixOf_iff_prefix.mpr (List.prefix_append pat R)
  rcases hp : pat ++ R with _ | ⟨c, t⟩
  · exact absurd (List.append_eq_nil.mp hp).1 hne
  · rw [hp] at h
    simp only [findFirst, h, if_true]

theorem findFirst_append_skip {pat X : Str} {c : Char} {Y : Str}
    (hne : pat ≠ []) (hnoX : ¬ pat <:+: X) (hc : c ∉ pat) :
    findFirst pat (X ++ c :: Y) = (findFirst pat (c :: Y)).map (· + X.length) := by
  induction X with
  | nil =>
    cases h : findFirst pat (c :: Y) <;> simp [h]
  | cons x X' ih =>
    have hx : ¬ pat <+: (x :: (X' ++ c :: Y)) := by
      intro hp
      rcases prefix_append_cons (X := x :: X') hp with hi | hm
      · exact hnoX hi
      · exact hc hm
    have hX' : ¬ pat <:+: X' := fun hi => hnoX (List.infix_cons hi)
    rw [List.cons_append, findFirst_cons_no_match hx, ih hX']
    rcases h : findFirst pat (c :: Y) with _ | k
    · simp
    · simp only [h, Option.map_some', List.length_cons, Option.some.injEq]
      omega

theorem getSubstitution_of_no_dollar (m b a : Str) :
    ∀ l : Str, '$' ∉ l → getSubstitution m b a l = l
  | [], _ => rfl
  | c :: rest, h => by
    have hc : ¬ c = '$' := fun he => h (he ▸ List.mem_cons_self c rest)
    have hr : '$' ∉ rest := fun hm => h (List.mem_cons_of_mem _ hm)
    rw [getSubstitution.eq_def]
    dsimp only
    rw [if_neg hc, getSubstitution_of_no_dollar m b a rest hr]

theorem lazyReplace_junction (pat1 pat2 repl P K R : Str)
    (h1ne : pat1 ≠ []) (h2ne : pat2 ≠ [])
    (hn1 : '\n' ∉ pat1) (hn2 : '\n' ∉ pat2)
    (hP : ¬ pat1 <:+: P) (hK : ¬ pat2 <:+: K)
    (hD : '$' ∉ repl) :
    lazyReplace pat1 pat2 repl
        (P ++ '\n' :: '\n' :: (pat1 ++ '\n' :: (K ++ '\n' :: '\n' :: (pat2 ++ R)))) =
      P ++ '\n' :: '\n' :: (repl ++ R) := by
  have hf1 : findFirst pat1
      (P ++ '\n' :: '\n' :: (pat1 ++ '\n' :: (K ++ '\n' :: '\n' :: (pat2 ++ R)))) =
      some (P.length + 2) := by
    rw [findFirst_append_skip h1ne hP hn1,
      findFirst_cons_no_match (not_prefix_cons h1ne hn1),
      findFirst_cons_no_match (not_prefix_cons h1ne hn1),
      findFirst_self_append _ _ h1ne]
    simp only [Option.map_some', Option.some.injEq]
    omega
  have hrest : List.drop (P.length + 2 + pat1.length)
      (P ++ '\n' :: '\n' :: (pat1 ++ '\n' :: (K ++ '\n' :: '\n' :: (pat2 ++ R)))) =
      '\n' :: (K ++ '\n' :: '\n' :: (pat2 ++ R)) := by
    have hsplit : P ++ '\n' :: '\n' :: (pat1 ++ '\n' :: (K ++ '\n' :: '\n' :: (pat2 ++ R))) =
        (P ++ '\n' :: '\n' :: pat1) ++ '\n' :: (K ++ '\n' :: '\n' :: (pat2 ++ R)) := by
      simp [List.append_assoc]
    rw [hsplit]
    apply List.drop_left'
    simp only [List.length_append, List.length_cons]
    omega
  have hf2 : findFirst pat2 ('\n' :: (K ++ '\n' :: '\n' :: (pat2 ++ R))) =
      some (K.length + 3) := by
    rw [findFirst_cons_no_match (not_prefix_cons h2ne hn2),
      findFirst_append_skip h2ne hK hn2,
      findFirst_cons_no_match (not_prefix_cons h2ne hn2),
      findFirst_cons_no_match (not_prefix_cons h2ne hn2),
      findFirst_self_append _ _ h2ne]
    simp only [Option.map_some', Option.some.injEq]
    omega
  have htake : List.take (P.length + 2)
      (P ++ '\n' :: '\n' :: (pat1 ++ '\n' :: (K ++ '\n' :: '\n' :: (pat2 ++ R)))) =
      P ++ ['\n', '\n'] := by
    have hsplit : P ++ '\n' :: '\n' :: (pat1 ++ '\n' :: (K ++ '\n' :: '\n' :: (pat2 ++ R))) =
        (P ++ ['\n', '\n']) ++ (pat1 ++ '\n' :: (K ++ '\n' :: '\n' :: (pat2 ++ R))) := by
      simp [List.append_assoc]
    rw [hsplit]
    apply List.take_left'
    simp only [List.length_append, List.length_cons, List.length_nil]
  have hdropEnd : List.drop (P.length + 2 + (pat1.length + (K.length + 3) + pat2.length))
      (P ++ '\n' :: '\n' :: (pat1 ++ '\n' :: (K ++ '\n' :: '\n' :: (pat2 ++ R)))) = R := by
    have hsplit : P ++ '\n' :: '\n' :: (pat1 ++ '\n' :: (K ++ '\n' :: '\n' :: (pat2 ++ R))) =
        (P ++ '\n' :: '\n' :: (pat1 ++ '\n' :: (K ++ '\n' :: '\n' :: pat2))) ++ R := by
      simp [List.append_assoc]
    rw [hsplit]
    apply List.drop_left'
    simp only [List.length_append, List.length_cons]
    omega
  unfold lazyReplace
  rw [hf1]
  dsimp only
  rw [hrest, hf2]
  dsimp only
  rw [htake, hdropEnd, getSubstitution_of_no_dollar _ _ _ repl hD]
  simp [List.append_assoc]

theorem mkPrompt_shape (ri : RepoInfo) (langs : List LangStat) (tree : List Str)
    (kfs : List KeyFile) :
    mkPrompt ri langs tree kfs =
      promptPre ri langs tree ++ '\n' :: '\n' ::
        (keyFilesMarker ++ '\n' :: (keyFilesJoin kfs ++ '\n' :: '\n' ::
          (provideMarker ++ promptTail))) := by
  unfold mkPrompt
  simp only [show ("\n\n").data = ['\n', '\n'] from rfl, show ("\n").data = ['\n'] from rfl,
    List.append_assoc, List.cons_append, List.nil_append]

theorem lazyReplace_mkPrompt (ri : RepoInfo) (langs : List LangStat) (tree : List Str)
    (kfs red : List KeyFile)
    (hA : ¬ keyFilesMarker <:+: promptPre ri langs tree)
    (hK : ¬ provideMarker <:+: keyFilesJoin kfs)
    (hD : '$' ∉ reducedReplacement red) :
    lazyReplace keyFilesMarker provideMarker (reducedReplacement red)
        (mkPrompt ri langs tree kfs) =
      mkPrompt ri langs tree red := by
  have h1ne : keyFilesMarker ≠ [] := by decide
  have h2ne : provideMarker ≠ [] := by decide
  have hn1 : '\n' ∉ keyFilesMarker := by decide
  have hn2 : '\n' ∉ provideMarker := by decide
  rw [mkPrompt_shape]
  rw [lazyReplace_junction keyFilesMarker provideMarker (reducedReplacement red)
    (promptPre ri langs tree) (keyFilesJoin kfs) promptTail h1ne h2ne hn1 hn2 hA hK hD]
  rw [mkPrompt_shape]
  unfold reducedReplacement
  simp only [show ("\n\n").data = ['\n', '\n'] from rfl, show ("\n").data = ['\n'] from rfl,
    List.append_assoc, List.cons_append, List.nil_append]

/-- C7 (amended): `analyzeRepository` calls the model at most twice per
invocation, and a retry happens exactly when the first response's finish
reason is `MAX_TOKENS` and more than 5 key files were supplied. The
retry prompt is computed by the replace
`prompt.replace(/KEY FILES:[\s\S]*?Provide a detailed/, replacement)`
with its GetSubstitution semantics on the replacement string; provided
`KEY FILES:` does not occur in the prompt before the key-files section,
`Provide a detailed` does not occur in the key-files content, and no
dollar sign occurs in the spliced replacement (the retained key files),
it equals the original prompt with the key-files section replaced by the
first `ceil(n/2)` of the `n` key files and all other content
unchanged. -/
theorem analyzeRepository_retry_spec (ri : RepoInfo) (tree : List Str)
    (keyFiles : List KeyFile) (langs : List LangStat) (r1 r2 : GenResp)
    (hA : ¬ keyFilesMarker <:+: promptPre ri langs tree)
    (hK : ¬ provideMarker <:+: keyFilesJoin keyFiles)
    (hD : '$' ∉ reducedReplacement (keyFiles.take ((keyFiles.length + 1) / 2))) :
    (analyzeRepositoryM ri tree keyFiles langs (Except.ok r1) (Except.ok r2)).calls ≤ 2 ∧
    ((analyzeRepositoryM ri tree keyFiles langs (Except.ok r1) (Except.ok r2)).calls = 2 ↔
      (r1.finishReason = some maxTokensStr ∧ keyFiles.length > 5)) ∧
    (analyzeRepositoryM ri tree keyFiles langs (Except.ok r1) (Except.ok r2)).prompt2 =
      (if r1.finishReason = some maxTokensStr ∧ keyFiles.length > 5 then
        some (mkPrompt ri langs tree (keyFiles.take ((keyFiles.length + 1) / 2)))
      else none) := by
  unfold analyzeRepositoryM
  dsimp only
  by_cases hc : r1.finishReason = some maxTokensStr ∧ keyFiles.length > 5
  · rw [if_pos hc, if_pos hc]
    refine ⟨Nat.le_refl _, ⟨fun _ => hc, fun _ => rfl⟩, ?_⟩
    rw [lazyReplace_mkPrompt ri langs tree keyFiles _ hA hK hD]
  · rw [if_neg hc, if_neg hc]
    refine ⟨?_, ⟨fun h => ?_, fun h => absurd h hc⟩, rfl⟩
    · show (1 : Nat) ≤ 2
      omega
    · have h1 : (1 : Nat) = 2 := h
      exact absurd h1 (by omega)

/-- Concrete repository metadata used by concrete instantiations. -/
def c7Repo : RepoInfo := ⟨[], [], [], 0, 0, [], []⟩

theorem analyzeRepository_retry_spec_witness :
    (analyzeRepositoryM c7Repo [] [] [] (Except.ok ⟨none, none⟩)
        (Except.ok ⟨none, none⟩)).prompt2 = none := by
  have h := analyzeRepository_retry_spec c7Repo [] [] [] ⟨none, none⟩ ⟨none, none⟩
    (by decide) (by decide) (by decide)
  rw [h.2.2]
  rw [if_neg]
  intro hcond
  simp at hcond

/-- Key files used by the C7 counterexample: six files, the first of
which contains the text `Provide a detailed` in its content. -/
def c7Files : List KeyFile :=
  [⟨("a").data, ("Provide a detailed").data⟩,
   ⟨("b").data, ("x2").data⟩,
   ⟨("c").data, ("x3").data⟩,
   ⟨("d").data, ("x4").data⟩,
   ⟨("e").data, ("x5").data⟩,
   ⟨("f").data, ("QQXV6").data⟩]

/-- Key files used by the second part of the C7 counterexample: six
files, the first of which contains a doubled dollar in its content (as a
Makefile would). -/
def c7FilesD : List KeyFile :=
  [⟨("a").data, ("$$x").data⟩,
   ⟨("b").data, ("x2").data⟩,
   ⟨("c").data, ("x3").data⟩,
   ⟨("d").data, ("x4").data⟩,
   ⟨("e").data, ("x5").data⟩,
   ⟨("f").data, ("x6").data⟩]

/-- C7 (counterexample): with six key files whose first content contains
`Provide a detailed`, the retry does happen (two calls) but the lazy
regex replace ends the match inside that file's content, so the retry
prompt is not the original prompt with only the first `ceil(6/2) = 3`
key files and everything else unchanged. And with a retained key file
whose content holds a doubled dollar, GetSubstitution collapses it in
the spliced replacement, so the retry prompt again differs from the
original prompt with only the first 3 key files. -/
theorem analyzeRepository_retry_counterexample :
    (analyzeRepositoryM c7Repo [] c7Files [] (Except.ok ⟨none, some maxTokensStr⟩)
        (Except.ok ⟨none, none⟩)).calls = 2 ∧
    (analyzeRepositoryM c7Repo [] c7Files [] (Except.ok ⟨none, some maxTokensStr⟩)
        (Except.ok ⟨none, none⟩)).prompt2 ≠
      some (mkPrompt c7Repo [] [] (c7Files.take ((c7Files.length + 1) / 2))) ∧
    (analyzeRepositoryM c7Repo [] c7FilesD [] (Except.ok ⟨none, some maxTokensStr⟩)
        (Except.ok ⟨none, none⟩)).prompt2 ≠
      some (mkPrompt c7Repo [] [] (c7FilesD.take ((c7FilesD.length + 1) / 2))) := by
  refine ⟨rfl, by decide, by decide⟩

/-- Skeleton analysis object built by the Cloudflare Worker's catch
branch (`worker/index.ts`, lines 363-385): `repoInfo` is filled from the
parsed URL and the GitHub response (with falsy-defaulting accesses),
every list field is the empty array, `readmeArchitecture` is the raw
model text and `mermaidDiagram` is empty. The GitHub response is an
object value here; a `null` response would make the real code throw out
of the catch. -/
def workerSkeleton (owner repo : Str) (ghRepoInfo : JValue) (analysisText : Str) : JValue :=
  JValue.jobj
    [(("repoInfo").data, JValue.jobj
        [(("name").data, JValue.jstr repo),
         (("owner").data, JValue.jstr owner),
         (("description").data,
           jOrElse (jget ghRepoInfo (("description").data)) (JValue.jstr [])),
         (("stars").data,
           jOrElse (jget ghRepoInfo (("stargazers_count").data)) (JValue.jnum (("0").data))),
         (("forks").data,
           jOrElse (jget ghRepoInfo (("forks_count").data)) (JValue.jnum (("0").data))),
         (("language").data,
           jOrElse (jget ghRepoInfo (("language").data)) (JValue.jstr [])),
         (("url").data,
           jOrElse (jget ghRepoInfo (("html_url").data)) (JValue.jstr []))]),
     (("techStack").data, JValue.jobj
        [(("languages").data, JValue.jarr []),
         (("frameworks").data, JValue.jarr []),
         (("libraries").data, JValue.jarr []),
         (("buildTools").data, JValue.jarr []),
         (("testing").data, JValue.jarr []),
         (("deployment").data, JValue.jarr [])]),
     (("apiEndpoints").data, JValue.jarr []),
     (("frontendBackendFlows").data, JValue.jarr []),
     (("databaseMapping").data, JValue.jobj
        [(("database").data, JValue.jstr []),
         (("orm").data, JValue.jstr []),
         (("models").data, JValue.jarr []),
         (("services").data, JValue.jarr [])]),
     (("externalServices").data, JValue.jarr []),
     (("envVariables").data, JValue.jarr []),
     (("apiVersioning").data, JValue.jarr []),
     (("dependencyGraph").data, JValue.jarr []),
     (("contributionSuggestions").data, JValue.jarr []),
     (("readmeArchitecture").data, JValue.jstr analysisText),
     (("mermaidDiagram").data, JValue.jstr [])]

/-- Parse step of the Worker's analyze handler (`worker/index.ts`, lines
352-386): extract the `\{[\s\S]*\}` match and `JSON.parse` it; on any
failure fall back to the skeleton object. -/
def workerAnalyze (owner repo : Str) (ghRepoInfo : JValue) (analysisText : Str) : JValue :=
  match salvage analysisText with
  | some sub =>
    match jsonParse sub with
    | some v => v
    | none => workerSkeleton owner repo ghRepoInfo analysisText
  | none => workerSkeleton owner repo ghRepoInfo analysisText

/-- C1 (counterexample): on a response text that no parse attempt can
repair, the server's `analyzeRepository` does not return a minimal
skeleton object: it throws the too-large error. -/
theorem analyzeRepository_no_fallback :
    (analyzeRepositoryM c7Repo [] [] []
        (Except.ok ⟨some (("no json here").data), none⟩)
        (Except.ok ⟨none, none⟩)).result = Except.error tooLargeMsg := by
  rfl

/-- C1 (amended): when `JSON.parse` fails on the raw text, on its
sanitized form, and on the salvaged `\{[\s\S]*\}` substring, the server's
`analyzeRepository` throws the too-large error instead of returning a
result; the minimal-skeleton fallback exists only in the Cloudflare
Worker's handler, which answers any parse failure with the skeleton
(repoInfo filled, list fields empty). -/
theorem analyzeRepository_parse_failure_spec :
    (∀ (ri : RepoInfo) (langs : List LangStat) (raw : Str),
      jsonParse raw = none →
      jsonParse (sanitizeJSON raw) = none →
      (∀ sub, salvage raw = some sub → jsonParse sub = none) →
      runAnalysis ri langs raw = Except.error tooLargeMsg) ∧
    (∀ (owner repo : Str) (gh : JValue) (raw : Str),
      salvage raw = none →
      workerAnalyze owner repo gh raw = workerSkeleton owner repo gh raw) ∧
    (∀ (owner repo : Str) (gh : JValue) (raw sub : Str),
      salvage raw = some sub → jsonParse sub = none →
      workerAnalyze owner repo gh raw = workerSkeleton owner repo gh raw) := by
  refine ⟨?_, ?_, ?_⟩
  · intro ri langs raw h1 h2 h3
    unfold runAnalysis parseModelResponse
    rw [h1, h2]
    rcases hs : salvage raw with _ | sub
    · rfl
    · dsimp only
      rw [h3 sub hs]
  · intro owner repo gh raw h
    unfold workerAnalyze
    rw [h]
  · intro owner repo gh raw sub h1 h2
    unfold workerAnalyze
    rw [h1]
    dsimp only
    rw [h2]

theorem analyzeRepository_parse_failure_spec_witness :
    runAnalysis c7Repo [] (("xx").data) = Except.error tooLargeMsg ∧
    workerAnalyze [] [] (JValue.jobj []) (("xx").data) =
      workerSkeleton [] [] (JValue.jobj []) (("xx").data) := by
  have hs : salvage (("xx").data) = none := rfl
  exact ⟨analyzeRepository_parse_failure_spec.1 c7Repo [] (("xx").data) rfl rfl
      (fun sub h => nomatch (hs.symm.trans h)),
    analyzeRepository_parse_failure_spec.2.1 [] [] (JValue.jobj []) (("xx").data) hs⟩

/-- C10: whenever `analyzeRepository`'s parse-and-build pipeline returns
(rather than throwing), the result's `repoInfo` is exactly the argument,
`techStack.languages` is the `languages` argument whenever that argument
is non-empty, every list field that is missing from the parsed model
output defaults to the empty array, and `readmeArchitecture` and
`mermaidDiagram` are the empty string. -/
theorem analyzeRepository_result_shape (ri : RepoInfo) (langs : List LangStat) (raw : Str)
    (res : AnalysisResultM) (h : runAnalysis ri langs raw = Except.ok res) :
    res.repoInfo = ri ∧
    (langs ≠ [] → res.techLanguages = langsToJson langs) ∧
    res.readmeArchitecture = [] ∧ res.mermaidDiagram = [] ∧
    ∃ parsed, parseModelResponse raw = Except.ok parsed ∧
      (jget parsed (("apiEndpoints").data) = none → res.apiEndpoints = JValue.jarr []) ∧
      (jget parsed (("frontendBackendFlows").data) = none →
        res.frontendBackendFlows = JValue.jarr []) ∧
      (jget parsed (("externalServices").data) = none →
        res.externalServices = JValue.jarr []) ∧
      (jget parsed (("envVariables").data) = none → res.envVariables = JValue.jarr []) ∧
      (jget parsed (("apiVersioning").data) = none → res.apiVersioning = JValue.jarr []) ∧
      (jget parsed (("dependencyGraph").data) = none → res.dependencyGraph = JValue.jarr []) ∧
      (jget parsed (("contributionSuggestions").data) = none →
        res.contributionSuggestions = JValue.jarr []) ∧
      (jchain parsed (("techStack").data) (("frameworks").data) = none →
        res.techFrameworks = JValue.jarr []) ∧
      (jchain parsed (("techStack").data) (("libraries").data) = none →
        res.techLibraries = JValue.jarr []) ∧
      (jchain parsed (("techStack").data) (("buildTools").data) = none →
        res.techBuildTools = JValue.jarr []) ∧
      (jchain parsed (("techStack").data) (("testing").data) = none →
        res.techTesting = JValue.jarr []) ∧
      (jchain parsed (("techStack").data) (("deployment").data) = none →
        res.techDeployment = JValue.jarr []) ∧
      (langs = [] → jchain parsed (("techStack").data) (("languages").data) = none →
        res.techLanguages = JValue.jarr []) := by
  unfold runAnalysis at h
  rcases hp : parseModelResponse raw with e | parsed
  · rw [hp] at h
    exact absurd h (by simp)
  · rw [hp] at h
    unfold buildAnalysisResult at h
    dsimp only at h
    by_cases hn : isJNull parsed
    · rw [if_pos hn] at h
      exact absurd h (by simp)
    · rw [if_neg hn] at h
      have hres := Except.ok.inj h
      subst hres
      refine ⟨rfl, ?_, rfl, rfl, parsed, rfl, ?_, ?_, ?_, ?_, ?_, ?_, ?_, ?_, ?_, ?_, ?_, ?_, ?_⟩
      all_goals try (intro hnone; dsimp only; rw [hnone]; rfl)
      · intro hl
        have hlen : langs.length > 0 := List.length_pos.mpr hl
        dsimp only
        rw [if_pos hlen]
      · intro hl hnone
        subst hl
        dsimp only
        rw [if_neg (show ¬ (List.length ([] : List LangStat) > 0) by simp), hnone]
        rfl

theorem analyzeRepository_result_shape_witness :
    (runAnalysis c7Repo [⟨("TypeScript").data, 100⟩] (("\x7b\x7d").data)).map
      (fun res => res.repoInfo) = Except.ok c7Repo := by
  rcases hres : runAnalysis c7Repo [⟨("TypeScript").data, 100⟩] (("\x7b\x7d").data)
    with e | res
  · have hok : (runAnalysis c7Repo [⟨("TypeScript").data, 100⟩]
        (("\x7b\x7d").data)).isOk = true := by rfl
    rw [hres] at hok
    exact Bool.noConfusion hok
  · have h := analyzeRepository_result_shape c7Repo [⟨("TypeScript").data, 100⟩]
      (("\x7b\x7d").data) res hres
    simp only [Except.map]
    rw [h.1]

/-- Strip trailing slashes (`url.replace(/\/+$/, "")`). -/
def stripSlashes (l : Str) : Str := (l.reverse.dropWhile (fun c => c == '/')).reverse

/-- The `cleaned` URL of `parseGitHubUrl`: trim, then strip trailing
slashes. -/
def cleanUrl (l : Str) : Str := stripSlashes (trimL l)

/-- Consume a literal at the front of the input. -/
def expectLit (pat l : Str) : Option Str :=
  if pat.isPrefixOf l then some (l.drop pat.length) else none

/-- Match `([^/]+)\/` at the front: a nonempty run of non-slash
characters followed by a slash, returning the run and the rest. -/
def splitSeg (l : Str) : Option (Str × Str) :=
  let o := l.takeWhile (fun c => !(c == '/'))
  if o = [] then none
  else
    match l.dropWhile (fun c => !(c == '/')) with
    | '/' :: r => some (o, r)
    | _ => none

/-- Match `([^/]+)` at the front without an end anchor: the greedy
nonempty run of non-slash characters. -/
def grabSeg (l : Str) : Option Str :=
  let g := l.takeWhile (fun c => !(c == '/'))
  if g = [] then none else some g

/-- Matcher of the first pattern of `parseGitHubUrl`
(`/^https?:\/\/(www\.)?github\.com\/([^/]+)\/([^/]+)/`). -/
def matchP1 (l : Str) : Option (Str × Str) :=
  match expectLit (("http").data) l with
  | none => none
  | some l1 =>
    let l2 := match expectLit (("s").data) l1 with
      | some r => r
      | none => l1
    match expectLit (("://").data) l2 with
    | none => none
    | some l3 =>
      let l4 := match expectLit (("www.").data) l3 with
        | some r => r
        | none => l3
      match expectLit (("github.com/").data) l4 with
      | none => none
      | some l5 =>
        match splitSeg l5 with
        | none => none
        | some (o, r) =>
          match grabSeg r with
          | none => none
          | some rp => some (o, rp)

/-- Matcher of the second pattern
(`/^github\.com\/([^/]+)\/([^/]+)/`, the Express variant without an end
anchor). -/
def matchP2 (l : Str) : Option (Str × Str) :=
  match expectLit (("github.com/").data) l with
  | none => none
  | some l1 =>
    match splitSeg l1 with
    | none => none
    | some (o, r) =>
      match grabSeg r with
      | none => none
      | some rp => some (o, rp)

/-- Matcher of the third pattern (`/^([^/]+)\/([^/]+)$/`): exactly one
slash with nonempty slash-free sides. -/
def matchP3 (l : Str) : Option (Str × Str) :=
  match splitSeg l with
  | none => none
  | some (o, r) =>
    if r ≠ [] ∧ r.all (fun c => !(c == '/')) then some (o, r) else none

/-- Strip a final `.git` (`repo.replace(/\.git$/, "")`). -/
def stripGit (r : Str) : Str :=
  if endsWithL ((".git").data) r then r.take (r.length - 4) else r

/-- The parsed owner/repo pair. -/
structure ParsedRepo where
  owner : Str
  repo : Str
deriving DecidableEq

/-- Post-processing of one regex match in `parseGitHubUrl`: strip `.git`
from the repo, and accept only when owner and repo are truthy (nonempty)
and the owner contains no dot; otherwise the loop continues. -/
def tryPattern (m : Option (Str × Str)) : Option ParsedRepo :=
  match m with
  | none => none
  | some (o, r) =>
    let rp := stripGit r
    if o ≠ [] ∧ rp ≠ [] ∧ '.' ∉ o then some ⟨o, rp⟩ else none

/-- Embedding of `parseGitHubUrl` from `server/routes.ts`: clean the
URL, then try the three patterns in order. -/
def parseGitHubUrl (url : Str) : Option ParsedRepo :=
  let c := cleanUrl url
  match tryPattern (matchP1 c) with
  | some p => some p
  | none =>
    match tryPattern (matchP2 c) with
    | some p => some p
    | none => tryPattern (matchP3 c)

theorem takeWhile_append_stop {p : Char → Bool} {X : Str} {c : Char} {Y : Str}
    (hX : ∀ x ∈ X, p x = true) (hc : p c = false) :
    (X ++ c :: Y).takeWhile p = X := by
  induction X with
  | nil =>
    simp only [List.nil_append, List.takeWhile_cons, hc, Bool.false_eq_true, if_false]
  | cons x X' ih =>
    have hx : p x = true := hX x (List.mem_cons_self _ _)
    simp only [List.cons_append, List.takeWhile_cons, hx, if_true]
    rw [ih (fun a ha => hX a (List.mem_cons_of_mem _ ha))]

theorem dropWhile_append_stop {p : Char → Bool} {X : Str} {c : Char} {Y : Str}
    (hX : ∀ x ∈ X, p x = true) (hc : p c = false) :
    (X ++ c :: Y).dropWhile p = c :: Y := by
  induction X with
  | nil =>
    simp only [List.nil_append, List.dropWhile_cons, hc, Bool.false_eq_true, if_false]
  | cons x X' ih =>
    have hx : p x = true := hX x (List.mem_cons_self _ _)
    simp only [List.cons_append, List.dropWhile_cons, hx, if_true]
    exact ih (fun a ha => hX a (List.mem_cons_of_mem _ ha))

theorem takeWhile_of_all {p : Char → Bool} {X : Str} (hX : ∀ x ∈ X, p x = true) :
    X.takeWhile p = X := by
  induction X with
  | nil => rfl
  | cons x X' ih =>
    have hx : p x = true := hX x (List.mem_cons_self _ _)
    simp only [List.takeWhile_cons, hx, if_true]
    rw [ih (fun a ha => hX a (List.mem_cons_of_mem _ ha))]

theorem dropWhile_of_head_neg {p : Char → Bool} {l : Str}
    (h : ∀ c, l.head? = some c → p c = false) : l.dropWhile p = l := by
  cases l with
  | nil => rfl
  | cons c t =>
    have hc : p c = false := h c rfl
    simp only [List.dropWhile_cons, hc, Bool.false_eq_true, if_false]

theorem trim_of_clean (ws1 ws2 mid : Str) (hne : mid ≠ [])
    (h1 : ∀ c ∈ ws1, isJsWs c = true) (h2 : ∀ c ∈ ws2, isJsWs c = true)
    (hh : ∀ c, mid.head? = some c → isJsWs c = false)
    (hl : ∀ c, mid.getLast? = some c → isJsWs c = false) :
    trimL (ws1 ++ (mid ++ ws2)) = mid := by
  unfold trimL
  rw [List.dropWhile_append_of_pos h1]
  have hmid : (mid ++ ws2).dropWhile isJsWs = mid ++ ws2 := by
    apply dropWhile_of_head_neg
    intro c hc
    cases mid with
    | nil => exact absurd rfl hne
    | cons m t =>
      simp only [List.cons_append, List.head?_cons, Option.some.injEq] at hc
      subst hc
      exact hh _ rfl
  rw [hmid, List.reverse_append]
  have h2r : ∀ c ∈ ws2.reverse, isJsWs c = true := by
    intro c hc
    exact h2 c (List.mem_reverse.mp hc)
  rw [List.dropWhile_append_of_pos h2r]
  have hrev : mid.reverse.dropWhile isJsWs = mid.reverse := by
    apply dropWhile_of_head_neg
    intro c hc
    rw [List.head?_reverse] at hc
    exact hl c hc
  rw [hrev, List.reverse_reverse]

theorem stripSlashes_of_clean (core sl : Str)
    (hsl : ∀ c ∈ sl, c = '/')
    (hcl : ∀ c, core.getLast? = some c → c ≠ '/') :
    stripSlashes (core ++ sl) = core := by
  unfold stripSlashes
  rw [List.reverse_append]
  have hslr : ∀ c ∈ sl.reverse, (c == '/') = true := by
    intro c hc
    have := hsl c (List.mem_reverse.mp hc)
    subst this
    rfl
  rw [List.dropWhile_append_of_pos hslr]
  have hrev : core.reverse.dropWhile (fun c => c == '/') = core.reverse := by
    apply dropWhile_of_head_neg
    intro c hc
    rw [List.head?_reverse] at hc
    have := hcl c hc
    simp [this]
  rw [hrev, List.reverse_reverse]

theorem isPrefixOf_true_of {pat l : Str} (h : pat <+: l) : pat.isPrefixOf l = true :=
  List.isPrefixOf_iff_prefix.mpr h

theorem expectLit_append (pat Y : Str) : expectLit pat (pat ++ Y) = some Y := by
  unfold expectLit
  rw [if_pos (isPrefixOf_true_of (List.prefix_append pat Y)), List.drop_left]

theorem expectLit_none {pat l : Str} (h : ¬ pat <+: l) : expectLit pat l = none := by
  unfold expectLit
  rw [if_neg]
  intro hb
  exact h (List.isPrefixOf_iff_prefix.mp hb)

theorem expectLit_head_ne {p0 : Char} {pt : Str} {c : Char} {Y : Str} (h : p0 ≠ c) :
    expectLit (p0 :: pt) (c :: Y) = none := by
  apply expectLit_none
  intro hp
  rw [List.cons_prefix_cons] at hp
  exact h hp.1

theorem notSlash_all {l : Str} (h : '/' ∉ l) : ∀ x ∈ l, (!(x == '/')) = true := by
  intro x hx
  have : x ≠ '/' := fun he => h (he ▸ hx)
  simp [this]

theorem splitSeg_clean {owner rest : Str} (hne : owner ≠ []) (ho : '/' ∉ owner) :
    splitSeg (owner ++ '/' :: rest) = some (owner, rest) := by
  unfold splitSeg
  rw [takeWhile_append_stop (notSlash_all ho) (by rfl)]
  rw [dropWhile_append_stop (notSlash_all ho) (by rfl)]
  rw [if_neg hne]
  rfl

theorem grabSeg_clean {r : Str} (hne : r ≠ []) (hr : '/' ∉ r) : grabSeg r = some r := by
  unfold grabSeg
  rw [takeWhile_of_all (notSlash_all hr)]
  rw [if_neg hne]

theorem matchP1_form1 {owner rp : Str} (hone : owner ≠ []) (ho : '/' ∉ owner)
    (hrne : rp ≠ []) (hr : '/' ∉ rp) :
    matchP1 (("https://github.com/").data ++ (owner ++ '/' :: rp)) = some (owner, rp) := by
  unfold matchP1
  rw [show ("https://github.com/").data ++ (owner ++ '/' :: rp) =
    ("http").data ++ (("s").data ++ (("://").data ++ (("github.com/").data ++
      (owner ++ '/' :: rp)))) from by simp [List.append_assoc]]
  rw [expectLit_append]
  dsimp only
  rw [expectLit_append]
  dsimp only
  rw [expectLit_append]
  dsimp only
  have hww : ¬ ("www.").data <+: (("github.com/").data ++ (owner ++ '/' :: rp)) := by
    intro hp
    rw [show ("github.com/").data ++ (owner ++ '/' :: rp) =
      'g' :: (("ithub.com/").data ++ (owner ++ '/' :: rp)) from rfl] at hp
    rw [List.cons_prefix_cons] at hp
    exact absurd hp.1 (by decide)
  rw [expectLit_none hww]
  dsimp only
  rw [expectLit_append]
  dsimp only
  rw [splitSeg_clean hone ho]
  dsimp only
  rw [grabSeg_clean hrne hr]

theorem matchP1_form2 {owner rp : Str} (hone : owner ≠ []) (ho : '/' ∉ owner)
    (hrne : rp ≠ []) (hr : '/' ∉ rp) :
    matchP1 (("http://www.github.com/").data ++ (owner ++ '/' :: rp)) = some (owner, rp) := by
  unfold matchP1
  rw [show ("http://www.github.com/").data ++ (owner ++ '/' :: rp) =
    ("http").data ++ (':' :: (("//").data ++ (("www.").data ++ (("github.com/").data ++
      (owner ++ '/' :: rp))))) from by simp [List.append_assoc]]
  rw [expectLit_append]
  dsimp only
  rw [show expectLit (("s").data) (':' :: (("//").data ++ (("www.").data ++
      (("github.com/").data ++ (owner ++ '/' :: rp))))) = none from
    expectLit_head_ne (by decide)]
  dsimp only
  rw [show (':' : Char) :: (("//").data ++ (("www.").data ++ (("github.com/").data ++
      (owner ++ '/' :: rp)))) =
    ("://").data ++ (("www.").data ++ (("github.com/").data ++ (owner ++ '/' :: rp)))
    from by simp]
  rw [expectLit_append]
  dsimp only
  rw [expectLit_append]
  dsimp only
  rw [expectLit_append]
  dsimp only
  rw [splitSeg_clean hone ho]
  dsimp only
  rw [grabSeg_clean hrne hr]

theorem matchP2_form3 {owner rp : Str} (hone : owner ≠ []) (ho : '/' ∉ owner)
    (hrne : rp ≠ []) (hr : '/' ∉ rp) :
    matchP2 (("github.com/").data ++ (owner ++ '/' :: rp)) = some (owner, rp) := by
  unfold matchP2
  rw [expectLit_append]
  dsimp only
  rw [splitSeg_clean hone ho]
  dsimp only
  rw [grabSeg_clean hrne hr]

theorem matchP1_form3_none (X : Str) :
    matchP1 (("github.com/").data ++ X) = none := by
  unfold matchP1
  rw [show ("github.com/").data ++ X = 'g' :: (("ithub.com/").data ++ X) from by simp]
  rw [expectLit_head_ne (show 'h' ≠ 'g' from by decide)]

theorem expectLit_suffix {pat l r : Str} (h : expectLit pat l = some r) : r <:+ l := by
  unfold expectLit at h
  by_cases hb : pat.isPrefixOf l
  · rw [if_pos hb] at h
    injection h with h
    exact h ▸ List.drop_suffix _ _
  · rw [if_neg hb] at h
    exact absurd h (by simp)

theorem matchP1_form4_none {owner rp : Str} (ho : '/' ∉ owner) (hr : '/' ∉ rp) :
    matchP1 (owner ++ '/' :: rp) = none := by
  have hcount : (owner ++ '/' :: rp).count '/' = 1 := by
    rw [List.count_append, List.count_cons]
    rw [List.count_eq_zero.mpr ho, List.count_eq_zero.mpr hr]
    simp
  have hnosl : ∀ l2 : Str, l2 <:+ (owner ++ '/' :: rp) →
      expectLit (("://").data) l2 = none := by
    intro l2 hsuf
    apply expectLit_none
    intro hp
    have hinf : ("://").data <:+: (owner ++ '/' :: rp) :=
      hp.isInfix.trans hsuf.isInfix
    have hcnt := hinf.count_le '/'
    rw [hcount] at hcnt
    have h2 : ((("://").data).count '/') = 2 := by decide
    rw [h2] at hcnt
    omega
  unfold matchP1
  rcases h1 : expectLit (("http").data) (owner ++ '/' :: rp) with _ | l1
  · rfl
  · have hsuf1 : l1 <:+ (owner ++ '/' :: rp) := expectLit_suffix h1
    dsimp only
    rcases h2 : expectLit (("s").data) l1 with _ | r
    · rw [hnosl l1 hsuf1]
    · have hsufr : r <:+ (owner ++ '/' :: rp) := (expectLit_suffix h2).trans hsuf1
      rw [hnosl r hsufr]

theorem matchP2_form4_none {owner rp : Str} (ho : '/' ∉ owner) (hdot : '.' ∉ owner)
    (hr : '/' ∉ rp) :
    matchP2 (owner ++ '/' :: rp) = none := by
  unfold matchP2
  rcases h1 : expectLit (("github.com/").data) (owner ++ '/' :: rp) with _ | l1
  · rfl
  · exfalso
    have hp : ("github.com/").data <+: (owner ++ '/' :: rp) := by
      unfold expectLit at h1
      by_cases hb : (("github.com/").data).isPrefixOf (owner ++ '/' :: rp)
      · exact List.isPrefixOf_iff_prefix.mp hb
      · rw [if_neg hb] at h1
        exact absurd h1 (by simp)
    obtain ⟨t, ht⟩ := hp
    have h2 : (owner ++ '/' :: rp).takeWhile (fun c => !(c == '/')) = owner :=
      takeWhile_append_stop (notSlash_all ho) (by rfl)
    have h3 : (owner ++ '/' :: rp).takeWhile (fun c => !(c == '/')) =
        ("github.com").data := by
      rw [← ht]
      rw [show ("github.com/").data ++ t = ("github.com").data ++ '/' :: t from by simp]
      exact takeWhile_append_stop (by decide) (by rfl)
    exact hdot ((h2.symm.trans h3) ▸ (by decide : '.' ∈ ("github.com").data))

theorem cleanUrl_form (ws1 ws2 sl core : Str)
    (h1 : ∀ c ∈ ws1, isJsWs c = true) (h2 : ∀ c ∈ ws2, isJsWs c = true)
    (hsl : ∀ c ∈ sl, c = '/')
    (hne : core ≠ [])
    (hh : ∀ c, core.head? = some c → isJsWs c = false)
    (hcl : ∀ c, core.getLast? = some c → isJsWs c = false ∧ c ≠ '/') :
    cleanUrl (ws1 ++ ((core ++ sl) ++ ws2)) = core := by
  unfold cleanUrl
  have hmidne : core ++ sl ≠ [] := fun h => hne (List.append_eq_nil.mp h).1
  have hhead : ∀ c, (core ++ sl).head? = some c → isJsWs c = false := by
    intro c hc
    cases core with
    | nil => exact absurd rfl hne
    | cons c0 t =>
      simp only [List.cons_append, List.head?_cons, Option.some.injEq] at hc
      subst hc
      exact hh _ rfl
  have hlast : ∀ c, (core ++ sl).getLast? = some c → isJsWs c = false := by
    intro c hc
    cases hsl0 : sl with
    | nil =>
      rw [hsl0, List.append_nil] at hc
      exact (hcl c hc).1
    | cons s0 st =>
      rw [hsl0, List.getLast?_append] at hc
      rcases hgl : (s0 :: st).getLast? with _ | d
      · rw [List.getLast?_eq_none_iff] at hgl
        exact absurd hgl (by simp)
      · rw [hgl] at hc
        dsimp only [Option.or] at hc
        injection hc with hdc
        subst hdc
        have hmem : d ∈ s0 :: st :=
          List.mem_of_mem_getLast? (show d ∈ (s0 :: st).getLast? by rw [hgl]; rfl)
        have hcs : d = '/' := hsl d (hsl0 ▸ hmem)
        subst hcs
        decide
  rw [trim_of_clean ws1 ws2 (core ++ sl) hmidne h1 h2 hhead hlast]
  exact stripSlashes_of_clean core sl hsl (fun c hc => (hcl c hc).2)

theorem getLast?_append_right {A B : Str} (h : B ≠ []) :
    (A ++ B).getLast? = B.getLast? := by
  rw [List.getLast?_append]
  rcases hgl : B.getLast? with _ | d
  · rw [List.getLast?_eq_none_iff] at hgl
    exact absurd hgl h
  · rfl

theorem stripGit_append_git (r : Str) : stripGit (r ++ ((".git").data)) = r := by
  unfold stripGit
  rw [if_pos]
  · rw [List.take_left']
    simp
  · exact (endsWithL_iff _ _).mpr (List.suffix_append _ _)

theorem stripGit_no {r : Str} (h : endsWithL ((".git").data) r = false) :
    stripGit r = r := by
  unfold stripGit
  rw [h]
  simp

theorem tryPattern_some {o r repo : Str} (hone : o ≠ []) (hdot : '.' ∉ o)
    (hstrip : stripGit r = repo) (hrne : repo ≠ []) :
    tryPattern (some (o, r)) = some ⟨o, repo⟩ := by
  unfold tryPattern
  dsimp only
  rw [hstrip]
  rw [if_pos ⟨hone, hrne, hdot⟩]

theorem head?_append_left {A : Str} (X : Str) {c : Char} (h : A.head? = some c) :
    (A ++ X).head? = some c := by
  cases A with
  | nil => exact absurd h (by simp)
  | cons a t =>
    simp only [List.head?_cons, Option.some.injEq] at h
    subst h
    rfl

theorem matchP3_form4 {owner rp : Str} (hone : owner ≠ []) (ho : '/' ∉ owner)
    (hrne : rp ≠ []) (hr : '/' ∉ rp) :
    matchP3 (owner ++ '/' :: rp) = some (owner, rp) := by
  unfold matchP3
  rw [splitSeg_clean hone ho]
  dsimp only
  rw [if_pos ⟨hrne, List.all_eq_true.mpr (notSlash_all hr)⟩]

theorem core_getLast_cond {PRE owner rp : Str} (hrne : rp ≠ [])
    (hrlast : ∀ c, rp.getLast? = some c → isJsWs c = false ∧ c ≠ '/') :
    ∀ c, (PRE ++ (owner ++ '/' :: rp)).getLast? = some c → isJsWs c = false ∧ c ≠ '/' := by
  intro c hc
  rw [getLast?_append_right (by simp : owner ++ '/' :: rp ≠ ([] : Str))] at hc
  rw [getLast?_append_right (by simp : ('/' :: rp) ≠ ([] : Str))] at hc
  rw [show ('/' :: rp : Str) = ['/'] ++ rp from rfl, getLast?_append_right hrne] at hc
  exact hrlast c hc

theorem parseGitHubUrl_pos1 (ws1 ws2 sl owner rp repo : Str)
    (hws1 : ∀ c ∈ ws1, isJsWs c = true) (hws2 : ∀ c ∈ ws2, isJsWs c = true)
    (hsl : ∀ c ∈ sl, c = '/')
    (hone : owner ≠ []) (hoslash : '/' ∉ owner) (hodot : '.' ∉ owner)
    (hrne : rp ≠ []) (hrslash : '/' ∉ rp)
    (hrlast : ∀ c, rp.getLast? = some c → isJsWs c = false ∧ c ≠ '/')
    (hstrip : stripGit rp = repo) (hrepone : repo ≠ []) :
    parseGitHubUrl (ws1 ++ ((((("https://github.com/").data ++ (owner ++ '/' :: rp)) ++ sl))
        ++ ws2)) = some ⟨owner, repo⟩ := by
  have hclean := cleanUrl_form ws1 ws2 sl (("https://github.com/").data ++ (owner ++ '/' :: rp))
    hws1 hws2 hsl (by simp)
    (by
      intro c hc
      rw [show ((("https://github.com/").data ++ (owner ++ '/' :: rp)).head? : Option Char) =
        some 'h' from rfl] at hc
      injection hc with hc
      subst hc
      decide)
    (core_getLast_cond hrne hrlast)
  unfold parseGitHubUrl
  dsimp only
  rw [hclean]
  rw [matchP1_form1 hone hoslash hrne hrslash]
  rw [tryPattern_some hone hodot hstrip hrepone]

theorem parseGitHubUrl_pos2 (ws1 ws2 sl owner rp repo : Str)
    (hws1 : ∀ c ∈ ws1, isJsWs c = true) (hws2 : ∀ c ∈ ws2, isJsWs c = true)
    (hsl : ∀ c ∈ sl, c = '/')
    (hone : owner ≠ []) (hoslash : '/' ∉ owner) (hodot : '.' ∉ owner)
    (hrne : rp ≠ []) (hrslash : '/' ∉ rp)
    (hrlast : ∀ c, rp.getLast? = some c → isJsWs c = false ∧ c ≠ '/')
    (hstrip : stripGit rp = repo) (hrepone : repo ≠ []) :
    parseGitHubUrl (ws1 ++ ((((("http://www.github.com/").data ++ (owner ++ '/' :: rp)) ++ sl))
        ++ ws2)) = some ⟨owner, repo⟩ := by
  have hclean := cleanUrl_form ws1 ws2 sl
    (("http://www.github.com/").data ++ (owner ++ '/' :: rp))
    hws1 hws2 hsl (by simp)
    (by
      intro c hc
      rw [show ((("http://www.github.com/").data ++ (owner ++ '/' :: rp)).head? :
        Option Char) = some 'h' from rfl] at hc
      injection hc with hc
      subst hc
      decide)
    (core_getLast_cond hrne hrlast)
  unfold parseGitHubUrl
  dsimp only
  rw [hclean]
  rw [matchP1_form2 hone hoslash hrne hrslash]
  rw [tryPattern_some hone hodot hstrip hrepone]

theorem parseGitHubUrl_pos3 (ws1 ws2 sl owner rp repo : Str)
    (hws1 : ∀ c ∈ ws1, isJsWs c = true) (hws2 : ∀ c ∈ ws2, isJsWs c = true)
    (hsl : ∀ c ∈ sl, c = '/')
    (hone : owner ≠ []) (hoslash : '/' ∉ owner) (hodot : '.' ∉ owner)
    (hrne : rp ≠ []) (hrslash : '/' ∉ rp)
    (hrlast : ∀ c, rp.getLast? = some c → isJsWs c = false ∧ c ≠ '/')
    (hstrip : stripGit rp = repo) (hrepone : repo ≠ []) :
    parseGitHubUrl (ws1 ++ ((((("github.com/").data ++ (owner ++ '/' :: rp)) ++ sl))
        ++ ws2)) = some ⟨owner, repo⟩ := by
  have hclean := cleanUrl_form ws1 ws2 sl (("github.com/").data ++ (owner ++ '/' :: rp))
    hws1 hws2 hsl (by simp)
    (by
      intro c hc
      rw [show ((("github.com/").data ++ (owner ++ '/' :: rp)).head? : Option Char) =
        some 'g' from rfl] at hc
      injection hc with hc
      subst hc
      decide)
    (core_getLast_cond hrne hrlast)
  unfold parseGitHubUrl
  dsimp only
  rw [hclean]
  rw [matchP1_form3_none]
  rw [show tryPattern none = none from rfl]
  rw [matchP2_form3 hone hoslash hrne hrslash]
  rw [tryPattern_some hone hodot hstrip hrepone]

theorem parseGitHubUrl_pos4 (ws1 ws2 sl owner rp repo : Str)
    (hws1 : ∀ c ∈ ws1, isJsWs c = true) (hws2 : ∀ c ∈ ws2, isJsWs c = true)
    (hsl : ∀ c ∈ sl, c = '/')
    (hone : owner ≠ []) (hoslash : '/' ∉ owner) (hodot : '.' ∉ owner)
    (hohead : ∀ c, owner.head? = some c → isJsWs c = false)
    (hrne : rp ≠ []) (hrslash : '/' ∉ rp)
    (hrlast : ∀ c, rp.getLast? = some c → isJsWs c = false ∧ c ≠ '/')
    (hstrip : stripGit rp = repo) (hrepone : repo ≠ []) :
    parseGitHubUrl (ws1 ++ ((((owner ++ '/' :: rp) ++ sl)) ++ ws2)) = some ⟨owner, repo⟩ := by
  have hclean := cleanUrl_form ws1 ws2 sl (owner ++ '/' :: rp)
    hws1 hws2 hsl (by simp)
    (by
      intro c hc
      cases owner with
      | nil => exact absurd rfl hone
      | cons o0 ot =>
        simp only [List.cons_append, List.head?_cons, Option.some.injEq] at hc
        subst hc
        exact hohead _ rfl)
    (by
      intro c hc
      rw [getLast?_append_right (by simp : ('/' :: rp) ≠ ([] : Str))] at hc
      rw [show ('/' :: rp : Str) = ['/'] ++ rp from rfl, getLast?_append_right hrne] at hc
      exact hrlast c hc)
  unfold parseGitHubUrl
  dsimp only
  rw [hclean]
  rw [matchP1_form4_none hoslash hrslash]
  rw [show tryPattern none = none from rfl]
  rw [matchP2_form4_none hoslash hodot hrslash]
  rw [show tryPattern none = none from rfl]
  rw [matchP3_form4 hone hoslash hrne hrslash]
  rw [tryPattern_some hone hodot hstrip hrepone]

/-- C3 (amended): `parseGitHubUrl` accepts the four textual forms
`https://github.com/OWNER/REPO`, `http://www.github.com/OWNER/REPO`,
`github.com/OWNER/REPO` and bare `OWNER/REPO`, each optionally with
surrounding whitespace, trailing slashes and a `.git` suffix on the
repo, provided the owner is nonempty, contains no `/` or `.` and does
not start with whitespace, and the repo is nonempty, contains no `/`,
does not end with whitespace or an own `.git` suffix; the result strips
the optional `.git`. Every input on which all three patterns fail, and
every input on which each matching pattern extracts an owner containing
`.`, yields `null`. -/
theorem parseGitHubUrl_spec :
    (∀ (ws1 ws2 sl owner repo : Str) (git : Bool),
      (∀ c ∈ ws1, isJsWs c = true) → (∀ c ∈ ws2, isJsWs c = true) →
      (∀ c ∈ sl, c = '/') →
      owner ≠ [] → '/' ∉ owner → '.' ∉ owner →
      (∀ c, owner.head? = some c → isJsWs c = false) →
      repo ≠ [] → '/' ∉ repo →
      (∀ c, repo.getLast? = some c → isJsWs c = false) →
      endsWithL ((".git").data) repo = false →
      (parseGitHubUrl (ws1 ++ ((((("https://github.com/").data ++ (owner ++ '/' ::
          (if git then repo ++ ((".git").data) else repo))) ++ sl)) ++ ws2)) =
        some ⟨owner, repo⟩ ∧
       parseGitHubUrl (ws1 ++ ((((("http://www.github.com/").data ++ (owner ++ '/' ::
          (if git then repo ++ ((".git").data) else repo))) ++ sl)) ++ ws2)) =
        some ⟨owner, repo⟩ ∧
       parseGitHubUrl (ws1 ++ ((((("github.com/").data ++ (owner ++ '/' ::
          (if git then repo ++ ((".git").data) else repo))) ++ sl)) ++ ws2)) =
        some ⟨owner, repo⟩ ∧
       parseGitHubUrl (ws1 ++ ((((owner ++ '/' ::
          (if git then repo ++ ((".git").data) else repo)) ++ sl)) ++ ws2)) =
        some ⟨owner, repo⟩)) ∧
    (∀ url : Str, matchP1 (cleanUrl url) = none → matchP2 (cleanUrl url) = none →
      matchP3 (cleanUrl url) = none → parseGitHubUrl url = none) ∧
    (∀ url : Str,
      (∀ o r, matchP1 (cleanUrl url) = some (o, r) → '.' ∈ o) →
      (∀ o r, matchP2 (cleanUrl url) = some (o, r) → '.' ∈ o) →
      (∀ o r, matchP3 (cleanUrl url) = some (o, r) → '.' ∈ o) →
      parseGitHubUrl url = none) := by
  refine ⟨?_, ?_, ?_⟩
  · intro ws1 ws2 sl owner repo git hws1 hws2 hsl hone hoslash hodot hohead
      hrepone hrslash hrlast hgit
    have hrne : (if git then repo ++ ((".git").data) else repo) ≠ [] := by
      cases git
      · simpa using hrepone
      · simp
    have hrslash2 : '/' ∉ (if git then repo ++ ((".git").data) else repo) := by
      cases git
      · simpa using hrslash
      · simp only [if_true]
        intro hmem
        rcases List.mem_append.mp hmem with hm | hm
        · exact hrslash hm
        · exact absurd hm (by decide)
    have hrlast2 : ∀ c, (if git then repo ++ ((".git").data) else repo).getLast? = some c →
        isJsWs c = false ∧ c ≠ '/' := by
      cases git
      · simp only [if_false, Bool.false_eq_true]
        intro c hc
        refine ⟨hrlast c hc, ?_⟩
        intro he
        subst he
        exact hrslash (List.mem_of_mem_getLast? (by rw [hc]; rfl))
      · simp only [if_true]
        intro c hc
        rw [getLast?_append_right (by decide : ((".git").data : Str) ≠ [])] at hc
        have : c = 't' := by
          have h4 : (((".git").data : Str)).getLast? = some 't' := by decide
          rw [h4] at hc
          injection hc with hc
          exact hc.symm
        subst this
        exact ⟨by decide, by decide⟩
    have hstrip : stripGit (if git then repo ++ ((".git").data) else repo) = repo := by
      cases git
      · simpa using stripGit_no hgit
      · simpa using stripGit_append_git repo
    exact ⟨parseGitHubUrl_pos1 ws1 ws2 sl owner _ repo hws1 hws2 hsl hone hoslash hodot
        hrne hrslash2 hrlast2 hstrip hrepone,
      parseGitHubUrl_pos2 ws1 ws2 sl owner _ repo hws1 hws2 hsl hone hoslash hodot
        hrne hrslash2 hrlast2 hstrip hrepone,
      parseGitHubUrl_pos3 ws1 ws2 sl owner _ repo hws1 hws2 hsl hone hoslash hodot
        hrne hrslash2 hrlast2 hstrip hrepone,
      parseGitHubUrl_pos4 ws1 ws2 sl owner _ repo hws1 hws2 hsl hone hoslash hodot hohead
        hrne hrslash2 hrlast2 hstrip hrepone⟩
  · intro url h1 h2 h3
    unfold parseGitHubUrl
    dsimp only
    rw [h1, h2, h3]
    rfl
  · intro url h1 h2 h3
    unfold parseGitHubUrl
    dsimp only
    have t1 : tryPattern (matchP1 (cleanUrl url)) = none := by
      rcases hm : matchP1 (cleanUrl url) with _ | ⟨o, r⟩
      · rfl
      · unfold tryPattern
        dsimp only
        rw [if_neg]
        intro hcond
        exact hcond.2.2 (h1 o r hm)
    have t2 : tryPattern (matchP2 (cleanUrl url)) = none := by
      rcases hm : matchP2 (cleanUrl url) with _ | ⟨o, r⟩
      · rfl
      · unfold tryPattern
        dsimp only
        rw [if_neg]
        intro hcond
        exact hcond.2.2 (h2 o r hm)
    have t3 : tryPattern (matchP3 (cleanUrl url)) = none := by
      rcases hm : matchP3 (cleanUrl url) with _ | ⟨o, r⟩
      · rfl
      · unfold tryPattern
        dsimp only
        rw [if_neg]
        intro hcond
        exact hcond.2.2 (h3 o r hm)
    rw [t1, t2, t3]

/-- C3 (counterexample): the claim's universal reading fails at the
edges: an empty repo with a `.git` suffix parses to `null` rather than
an empty repo; an owner starting with whitespace is eaten by `trim`; and
a repo that itself ends in `.git` loses that suffix. -/
theorem parseGitHubUrl_counterexample :
    parseGitHubUrl (("a/.git").data) = none ∧
    parseGitHubUrl ((" a/b").data) ≠ some ⟨(" a").data, ("b").data⟩ ∧
    parseGitHubUrl (("a/b.git").data) ≠ some ⟨("a").data, ("b.git").data⟩ := by
  refine ⟨by decide, by decide, by decide⟩

theorem parseGitHubUrl_spec_witness :
    parseGitHubUrl ((" https://github.com/abc/xyz.git/ ").data) =
      some ⟨("abc").data, ("xyz").data⟩ := by
  have h := (parseGitHubUrl_spec.1 ([' '] : Str) ([' '] : Str) (['/'] : Str)
      (("abc").data) (("xyz").data) true
      (by decide) (by decide) (by decide) (by decide) (by decide) (by decide)
      (by
        intro c hc
        injection hc with hc
        subst hc
        decide)
      (by decide) (by decide)
      (by
        intro c hc
        injection hc with hc
        subst hc
        decide)
      (by decide)).1
  rw [show ((" https://github.com/abc/xyz.git/ ").data : Str) =
    [' '] ++ ((((("https://github.com/").data ++ ((("abc").data) ++ '/' ::
      (if true then ("xyz").data ++ ((".git").data) else ("xyz").data))) ++ ['/'])) ++ [' '])
    from by decide]
  exact h

/- ===== github.ts (src/unnamed/part_001): fetchFileContent, fetchKeyFiles ===== -/

/-- JavaScript `s.split(sep)` for a one-character separator. -/
def splitOnC (sep : Char) : Str → List Str
  | [] => [[]]
  | c :: rest =>
    if c = sep then [] :: splitOnC sep rest
    else
      match splitOnC sep rest with
      | [] => [[c]]
      | s :: ss => (c :: s) :: ss

/-- `file.split("/").pop() || ""` (line 208): the file-name component. -/
def fileNameOf (file : Str) : Str := (splitOnC '/' file).getLast?.getD []

/-- JavaScript `toLowerCase` on the ASCII range (every pattern compared
against is ASCII; other characters pass through unchanged). -/
def toLowerC (c : Char) : Char :=
  if 'A' ≤ c ∧ c ≤ 'Z' then Char.ofNat (c.toNat + 32) else c

def toLowerS (s : Str) : Str := s.map toLowerC

/-- JavaScript `hay.includes(sub)`: substring test. -/
def includesS (hay sub : Str) : Bool := decide (sub <:+: hay)

/-- `"." + fileName.split(".").pop()` (line 216). -/
def extOf (fileName : Str) : Str := '.' :: ((splitOnC '.' fileName).getLast?.getD [])

def keyFilePatterns : List Str := [
  ("package.json").data, ("requirements.txt").data, ("Pipfile").data,
  ("pyproject.toml").data, ("Cargo.toml").data, ("go.mod").data,
  ("pom.xml").data, ("build.gradle").data, ("Gemfile").data,
  ("composer.json").data, (".env.example").data, (".env.sample").data,
  ("docker-compose.yml").data, ("Dockerfile").data, ("Makefile").data,
  ("README.md").data, ("tsconfig.json").data, ("vite.config.ts").data,
  ("vite.config.js").data, ("webpack.config.js").data, ("next.config.js").data,
  ("next.config.ts").data, ("nuxt.config.ts").data, ("angular.json").data]

def codeExtensions : List Str := [
  (".ts").data, (".tsx").data, (".js").data, (".jsx").data, (".py").data,
  (".go").data, (".rs").data, (".java").data, (".rb").data, (".php").data,
  (".cs").data, (".vue").data, (".svelte").data]

def routePatterns : List Str := [
  ("route").data, ("router").data, ("controller").data, ("endpoint").data,
  ("api").data, ("handler").data, ("middleware").data, ("server").data,
  ("app").data, ("index").data, ("main").data, ("urls").data, ("views").data]

/-- The body of the `for` loop of `fetchKeyFiles` (lines 207-242):
whether `file` is pushed onto `filesToFetch`. -/
def selectFile (file : Str) : Bool :=
  if keyFilePatterns.any (fun p => decide (fileNameOf file = p) || endsWithL p (toLowerS file)) then
    true
  else if codeExtensions.contains (extOf (fileNameOf file)) then
    if routePatterns.any
        (fun p => includesS (toLowerS file) p || includesS (toLowerS (fileNameOf file)) p) then
      true
    else
      includesS (toLowerS file) (("page").data) ||
      includesS (toLowerS file) (("screen").data) ||
      includesS (toLowerS file) (("component").data) ||
      includesS (toLowerS file) (("service").data) ||
      includesS (toLowerS file) (("model").data) ||
      includesS (toLowerS file) (("schema").data) ||
      includesS (toLowerS file) (("database").data) ||
      includesS (toLowerS file) (("db").data) ||
      includesS (toLowerS file) (("auth").data) ||
      includesS (toLowerS file) (("config").data)
  else false

/-- `fetchFileContent` (lines 124-139). `getContent` stands for the
Octokit `repos.getContent` call: an error (a throw), a payload without a
`content` field, or the decoded content. Every error is caught and
mapped to the empty string. -/
def fetchFileContent (getContent : Str → Except Str (Option Str)) (path : Str) : Str :=
  match getContent path with
  | Except.error _ => []
  | Except.ok none => []
  | Except.ok (some c) => c

/-- One fetched record (lines 252-255): the path together with
`content.slice(0, 3000)`. -/
def fetchEntry (getContent : Str → Except Str (Option Str)) (path : Str) : KeyFile :=
  ⟨path, (fetchFileContent getContent path).take 3000⟩

/-- The batching loop of `fetchKeyFiles` (lines 246-259): slices of at
most 10 paths fetched batch after batch; fuel makes the recursion
structural. -/
def fetchChunksF (getContent : Str → Except Str (Option Str)) :
    Nat → List Str → List (List KeyFile)
  | 0, _ => []
  | _ + 1, [] => []
  | n + 1, p :: rest =>
      ((p :: rest).take 10).map (fetchEntry getContent) ::
        fetchChunksF getContent n ((p :: rest).drop 10)

/-- `fetchKeyFiles` (lines 200-262). -/
def fetchKeyFiles (getContent : Str → Except Str (Option Str)) (allFiles : List Str) : List KeyFile :=
  let limitedFiles := (allFiles.filter selectFile).take 60
  (fetchChunksF getContent limitedFiles.length limitedFiles).flatten

/-- The key-file-name arm of the selection (line 211). -/
def isKeyFilePattern (file : Str) : Bool :=
  keyFilePatterns.any (fun p => decide (fileNameOf file = p) || endsWithL p (toLowerS file))

/-- The code-extension test of the selection (lines 216-217). -/
def hasCodeExtension (file : Str) : Bool :=
  codeExtensions.contains (extOf (fileNameOf file))

def secondaryKeywords : List Str := [
  ("page").data, ("screen").data, ("component").data, ("service").data,
  ("model").data, ("schema").data, ("database").data, ("db").data,
  ("auth").data, ("config").data]

/-- The flattened keyword test of the selection (lines 218-238). -/
def hasSelectionKeyword (file : Str) : Bool :=
  routePatterns.any
    (fun p => includesS (toLowerS file) p || includesS (toLowerS (fileNameOf file)) p) ||
  secondaryKeywords.any (fun k => includesS (toLowerS file) k)

/-- The claim words the keyword list as exactly route, page, screen,
component, service, model, schema, database, db, auth, config. -/
def claimKeywords : List Str := [
  ("route").data, ("page").data, ("screen").data, ("component").data,
  ("service").data, ("model").data, ("schema").data, ("database").data,
  ("db").data, ("auth").data, ("config").data]

/-- The selection predicate exactly as the claim states it. -/
def claimSelectFile (file : Str) : Bool :=
  isKeyFilePattern file ||
  (hasCodeExtension file && claimKeywords.any (fun k => includesS (toLowerS file) k))

theorem selectFile_eq (file : Str) :
    selectFile file =
      (isKeyFilePattern file || (hasCodeExtension file && hasSelectionKeyword file)) := by
  unfold selectFile isKeyFilePattern hasCodeExtension hasSelectionKeyword
  cases h1 : keyFilePatterns.any
      (fun p => decide (fileNameOf file = p) || endsWithL p (toLowerS file))
  · simp only [Bool.false_eq_true, if_false, Bool.false_or]
    cases h2 : codeExtensions.contains (extOf (fileNameOf file))
    · simp
    · simp only [if_true, Bool.true_and]
      cases h3 : routePatterns.any
          (fun p => includesS (toLowerS file) p || includesS (toLowerS (fileNameOf file)) p)
      · simp only [Bool.false_eq_true, if_false, Bool.false_or]
        simp [secondaryKeywords, Bool.or_assoc]
      · simp
  · simp

theorem fetchChunksF_join (getContent : Str → Except Str (Option Str)) :
    ∀ (n : Nat) (l : List Str), l.length ≤ n →
      (fetchChunksF getContent n l).flatten = l.map (fetchEntry getContent)
  | 0, l, h => by
      rw [List.length_eq_zero.mp (Nat.le_zero.mp h)]
      rfl
  | _ + 1, [], _ => rfl
  | n + 1, p :: rest, h => by
      have hlen : ((p :: rest).drop 10).length ≤ n := by
        simp only [List.length_drop, List.length_cons]
        simp only [List.length_cons] at h
        omega
      show ((p :: rest).take 10).map (fetchEntry getContent) ++
          (fetchChunksF getContent n ((p :: rest).drop 10)).flatten = _
      rw [fetchChunksF_join getContent n ((p :: rest).drop 10) hlen,
        ← List.map_append, List.take_append_drop]

theorem fetchChunksF_sizes (getContent : Str → Except Str (Option Str)) :
    ∀ (n : Nat) (l : List Str),
      ((fetchChunksF getContent n l).all (fun b => b.length ≤ 10)) = true
  | 0, _ => rfl
  | _ + 1, [] => rfl
  | n + 1, p :: rest => by
      simp only [fetchChunksF, List.all_cons,
        fetchChunksF_sizes getContent n ((p :: rest).drop 10), Bool.and_true]
      simp [List.length_take]

theorem fetchKeyFiles_eq_map (getContent : Str → Except Str (Option Str))
    (allFiles : List Str) :
    fetchKeyFiles getContent allFiles
      = ((allFiles.filter selectFile).take 60).map (fetchEntry getContent) :=
  fetchChunksF_join getContent _ _ le_rfl

/-- C4 (counterexample): `main.py` is selected by the code — extension
`.py` plus the ROUTE_PATTERNS keyword `main` — but matches neither a
key-file name pattern nor any keyword in the claim list, so the claim
predicate rejects it. -/
theorem fetchKeyFiles_counterexample :
    selectFile (("main.py").data) = true ∧
    claimSelectFile (("main.py").data) = false ∧
    (fetchKeyFiles (fun _ => Except.ok none) [("main.py").data]).map KeyFile.path
      = [("main.py").data] := by
  refine ⟨by decide, by decide, by decide⟩

/-- C4 (amended): fetchKeyFiles returns, in input order, the first 60
files passing the selection test, each content truncated to 3000
characters; the selection test is: a key-file name pattern, or a
recognized code extension together with one of the keywords route,
router, controller, endpoint, api, handler, middleware, server, app,
index, main, urls, views (from ROUTE_PATTERNS, over path or file name)
or page, screen, component, service, model, schema, database, db, auth,
config (over the path). -/
theorem fetchKeyFiles_spec (getContent : Str → Except Str (Option Str))
    (allFiles : List Str) :
    (fetchKeyFiles getContent allFiles).map KeyFile.path
      = (allFiles.filter selectFile).take 60 ∧
    (fetchKeyFiles getContent allFiles).length ≤ 60 ∧
    ((fetchKeyFiles getContent allFiles).all (fun kf => kf.content.length ≤ 3000)) = true ∧
    (∀ file, selectFile file
      = (isKeyFilePattern file || (hasCodeExtension file && hasSelectionKeyword file))) := by
  refine ⟨?_, ?_, ?_, selectFile_eq⟩
  · rw [fetchKeyFiles_eq_map, List.map_map]
    have h : (KeyFile.path ∘ fetchEntry getContent) = id := funext fun p => rfl
    rw [h, List.map_id]
  · rw [fetchKeyFiles_eq_map, List.length_map, List.length_take]
    exact min_le_left _ _
  · rw [fetchKeyFiles_eq_map, List.all_eq_true]
    intro kf hkf
    rcases List.mem_map.mp hkf with ⟨p, _, hp⟩
    subst hp
    simp only [fetchEntry, decide_eq_true_eq, List.length_take]
    exact min_le_left _ _

theorem fetchKeyFiles_spec_witness :
    (fetchKeyFiles (fun _ => Except.ok none)
        [("src/app.ts").data, ("notes.txt").data]).map KeyFile.path
      = [("src/app.ts").data] := by
  have h := (fetchKeyFiles_spec (fun _ => Except.ok none)
      [("src/app.ts").data, ("notes.txt").data]).1
  rw [h]
  decide

/-- C5: the selected files are fetched in consecutive slices of at most
10 paths; flattening the slices yields exactly one record per selected
path, in selection order, for every fetch oracle — in particular when
fetches fail, since fetchFileContent maps every error to the empty
string instead of throwing. -/
theorem fetchKeyFiles_batches (getContent : Str → Except Str (Option Str))
    (allFiles : List Str) :
    ((fetchChunksF getContent ((allFiles.filter selectFile).take 60).length
        ((allFiles.filter selectFile).take 60)).all (fun b => b.length ≤ 10)) = true ∧
    fetchKeyFiles getContent allFiles
      = (fetchChunksF getContent ((allFiles.filter selectFile).take 60).length
          ((allFiles.filter selectFile).take 60)).flatten ∧
    (fetchKeyFiles getContent allFiles).map KeyFile.path
      = (allFiles.filter selectFile).take 60 ∧
    (∀ path e, getContent path = Except.error e → fetchFileContent getContent path = []) := by
  refine ⟨fetchChunksF_sizes getContent _ _, rfl, ?_, ?_⟩
  · rw [fetchKeyFiles_eq_map, List.map_map]
    have h : (KeyFile.path ∘ fetchEntry getContent) = id := funext fun p => rfl
    rw [h, List.map_id]
  · intro path e he
    unfold fetchFileContent
    rw [he]

theorem fetchKeyFiles_batches_witness :
    fetchFileContent (fun _ => Except.error (("boom").data)) (("a.ts").data) = [] ∧
    (fetchKeyFiles (fun _ => Except.error (("boom").data)) [("app.ts").data]).map KeyFile.path
      = [("app.ts").data] := by
  have h := fetchKeyFiles_batches (fun _ => Except.error (("boom").data)) [("app.ts").data]
  refine ⟨h.2.2.2 (("a.ts").data) (("boom").data) rfl, ?_⟩
  rw [h.2.2.1]
  decide

/- ===== routes.ts: POST /api/auth/signup (lines 82-120) ===== -/

/-- JavaScript truthiness of a possibly-missing string: `undefined` and
the empty string are falsy. -/
def jsStrFalsy : Option Str → Bool
  | none => true
  | some s => decide (s = [])

/-- One row of the `users` table. -/
structure UserRec where
  id : Str
  username : Str
  password : Str
deriving DecidableEq

/-- The three response shapes of the signup handler. -/
inductive SignupResp where
  | badRequest (msg : Str)
  | conflict (msg : Str)
  | ok (token : Str) (id : Str) (username : Str)
deriving DecidableEq

def SignupResp.isBadRequest : SignupResp → Bool
  | SignupResp.badRequest _ => true
  | _ => false

/-- The signup handler. `hash` stands for bcrypt, `sign` for the JWT
signer on the payload fields, `newId` for the id the insert generates;
`storage.getUserByUsername` is the first row whose username matches;
`createUser` appends the row. Returns the response and the new table. -/
def signup (hash : Str → Str) (sign : Str → Str → Str) (newId : Str)
    (users : List UserRec) (username password : Option Str) :
    SignupResp × List UserRec :=
  if jsStrFalsy username || jsStrFalsy password then
    (SignupResp.badRequest (("Username and password are required").data), users)
  else if (username.getD []).length < 3 then
    (SignupResp.badRequest (("Username must be at least 3 characters").data), users)
  else if (password.getD []).length < 6 then
    (SignupResp.badRequest (("Password must be at least 6 characters").data), users)
  else
    match users.find? (fun r => decide (r.username = username.getD [])) with
    | some _ => (SignupResp.conflict (("Username already taken").data), users)
    | none =>
      (SignupResp.ok (sign newId (username.getD [])) newId (username.getD []),
       users ++ [⟨newId, username.getD [], hash (password.getD [])⟩])

/-- The disjunction of the three 400 conditions of the handler. -/
def signupInvalid (username password : Option Str) : Bool :=
  (jsStrFalsy username || jsStrFalsy password) ||
  (decide ((username.getD []).length < 3) || decide ((password.getD []).length < 6))

/- ===== routes.ts: POST /api/analyze (lines 209-341) ===== -/

/-- One row of the `analyses` table (`createAnalysis` insert shape plus
the generated id and createdAt). -/
structure AnalysisRec where
  id : Nat
  repoUrl : Str
  owner : Str
  repo : Str
  userId : Option Str
  analysisData : AnalysisResultM
  createdAt : Nat

/-- Combining step of `ORDER BY createdAt DESC LIMIT 1` over the
filtered rows: keep the row with the larger createdAt. -/
def pickNewer : Option AnalysisRec → AnalysisRec → Option AnalysisRec
  | none, a => some a
  | some b, a => if b.createdAt < a.createdAt then some a else some b

/-- `DatabaseStorage.getAnalysisByRepo` (auth.ts lines 133-144): among
rows with matching owner and repo, the one with maximal createdAt. -/
def getAnalysisByRepo (db : List AnalysisRec) (owner repo : Str) : Option AnalysisRec :=
  (db.filter (fun a => decide (a.owner = owner) && decide (a.repo = repo))).foldl pickNewer none

/-- External dependencies of the /api/analyze handler: the GEMINI_API_KEY
check, the four GitHub fetches, the Gemini analysis, and the id and
timestamp the insert generates. -/
structure RouteDeps where
  hasGeminiKey : Bool
  fetchRepoInfo : Str → Str → Except Str RepoInfo
  fetchRepoTree : Str → Str → Except Str (List Str)
  fetchLanguages : Str → Str → Except Str (List LangStat)
  fetchKeyFiles : Str → Str → List Str → Except Str (List KeyFile)
  analyzeRepository : RepoInfo → List Str → List KeyFile → List LangStat → Except Str AnalysisResultM
  savedId : Nat
  now : Nat

/-- Observable actions of the handler: SSE writes (step, message and the
optional id/analysis payload of a complete event), the external calls,
and the insert. -/
inductive AEv where
  | sse (step : Str) (message : Str) (id : Option Nat) (analysis : Option AnalysisResultM)
  | ghInfo
  | ghTree
  | ghLangs
  | ghFiles
  | gemini
  | save

/-- Outcome of a request: a pre-stream JSON status, or a finished SSE
stream (`status = none`), together with the action trace and the table
after the request. -/
structure RouteResult where
  status : Option Nat
  events : List AEv
  db : List AnalysisRec

/-- The error-message transform of the inner catch (lines 309-317):
default for an empty message, and a friendly message when the text looks
like a JSON parse error. -/
def errTransform (e : Str) : Str :=
  let m := if decide (e = []) then ("An unexpected error occurred").data else e
  if includesS m (("JSON").data) || includesS m (("parse").data) ||
      includesS m (("Unexpected token").data) then
    ("The AI returned an incomplete response. This can happen with very large repositories. Please try again — results may vary.").data
  else m

def sseEv (step msg : Str) : AEv := AEv.sse step msg none none

def evInfoFetch : AEv := sseEv (("info").data) (("Fetching repository information...").data)

def evTree : AEv := sseEv (("tree").data) (("Scanning file structure...").data)

def evLangs : AEv := sseEv (("languages").data) (("Detecting programming languages...").data)

/-- `Reading N key files...` with N = min(fileTree.length, 60). -/
def filesMsg (n : Nat) : Str :=
  ("Reading ").data ++ Nat.toDigits 10 (min n 60) ++ (" key files...").data

def evFiles (n : Nat) : AEv := sseEv (("files").data) (filesMsg n)

def evAnalysis : AEv := sseEv (("analysis").data) (("AI is analyzing the codebase architecture...").data)

def evSaving : AEv := sseEv (("saving").data) (("Saving analysis results...").data)

def evComplete (id : Nat) (a : AnalysisResultM) : AEv :=
  AEv.sse (("complete").data) (("Analysis complete!").data) (some id) (some a)

def evCachedInfo : AEv := sseEv (("info").data) (("Loading cached analysis...").data)

def errEv (e : Str) : AEv := sseEv (("error").data) (errTransform e)

/-- The non-cached tail of the handler (lines 257-320): each progress
event is written before the call it announces; the first failing call
aborts the sequence with a single error event and no insert. -/
def analyzeFresh (deps : RouteDeps) (db : List AnalysisRec) (url : Str)
    (pr : ParsedRepo) (userId : Option Str) : RouteResult :=
  match deps.fetchRepoInfo pr.owner pr.repo with
  | Except.error e => ⟨none, [evInfoFetch, AEv.ghInfo, errEv e], db⟩
  | Except.ok ri =>
    match deps.fetchRepoTree pr.owner pr.repo with
    | Except.error e => ⟨none, [evInfoFetch, AEv.ghInfo, evTree, AEv.ghTree, errEv e], db⟩
    | Except.ok fileTree =>
      match deps.fetchLanguages pr.owner pr.repo with
      | Except.error e =>
        ⟨none, [evInfoFetch, AEv.ghInfo, evTree, AEv.ghTree, evLangs, AEv.ghLangs, errEv e], db⟩
      | Except.ok languages =>
        match deps.fetchKeyFiles pr.owner pr.repo fileTree with
        | Except.error e =>
          ⟨none, [evInfoFetch, AEv.ghInfo, evTree, AEv.ghTree, evLangs, AEv.ghLangs,
                  evFiles fileTree.length, AEv.ghFiles, errEv e], db⟩
        | Except.ok keyFiles =>
          match deps.analyzeRepository ri fileTree keyFiles languages with
          | Except.error e =>
            ⟨none, [evInfoFetch, AEv.ghInfo, evTree, AEv.ghTree, evLangs, AEv.ghLangs,
                    evFiles fileTree.length, AEv.ghFiles, evAnalysis, AEv.gemini, errEv e], db⟩
          | Except.ok analysis =>
            ⟨none, [evInfoFetch, AEv.ghInfo, evTree, AEv.ghTree, evLangs, AEv.ghLangs,
                    evFiles fileTree.length, AEv.ghFiles, evAnalysis, AEv.gemini,
                    evSaving, AEv.save, evComplete deps.savedId analysis],
             db ++ [⟨deps.savedId, url, pr.owner, pr.repo, userId, analysis, deps.now⟩]⟩

/-- The /api/analyze handler (lines 209-341): missing url → 400, missing
key → 500, unparsable url → 400; then the cached branch (no
forceRefresh and a stored analysis) or the fresh pipeline. -/
def analyzeRoute (deps : RouteDeps) (db : List AnalysisRec) (url : Option Str)
    (forceRefresh : Bool) (userId : Option Str) : RouteResult :=
  if jsStrFalsy url then ⟨some 400, [], db⟩
  else if !deps.hasGeminiKey then ⟨some 500, [], db⟩
  else
    match parseGitHubUrl (url.getD []) with
    | none => ⟨some 400, [], db⟩
    | some pr =>
      if !forceRefresh then
        match getAnalysisByRepo db pr.owner pr.repo with
        | some cached =>
            ⟨none, [evCachedInfo, evComplete cached.id cached.analysisData], db⟩
        | none => analyzeFresh deps db (url.getD []) pr userId
      else analyzeFresh deps db (url.getD []) pr userId

theorem foldl_pickNewer_some : ∀ (l : List AnalysisRec) (c : AnalysisRec),
    ∃ d, l.foldl pickNewer (some c) = some d ∧ (d = c ∨ d ∈ l) ∧
      c.createdAt ≤ d.createdAt ∧ ∀ a ∈ l, a.createdAt ≤ d.createdAt
  | [], c => ⟨c, rfl, Or.inl rfl, le_rfl, by simp⟩
  | x :: xs, c => by
    rw [List.foldl_cons]
    by_cases h : c.createdAt < x.createdAt
    · rw [show pickNewer (some c) x = some x from by dsimp only [pickNewer]; rw [if_pos h]]
      obtain ⟨d, hd, hm, hle, hall⟩ := foldl_pickNewer_some xs x
      refine ⟨d, hd, Or.inr ?_, le_trans (Nat.le_of_lt h) hle, ?_⟩
      · rcases hm with h1 | h1
        · rw [h1]; exact List.mem_cons_self _ _
        · exact List.mem_cons_of_mem _ h1
      · intro a ha
        rcases List.mem_cons.mp ha with h2 | h2
        · rw [h2]; exact hle
        · exact hall a h2
    · rw [show pickNewer (some c) x = some c from by dsimp only [pickNewer]; rw [if_neg h]]
      obtain ⟨d, hd, hm, hle, hall⟩ := foldl_pickNewer_some xs c
      refine ⟨d, hd, ?_, hle, ?_⟩
      · rcases hm with h1 | h1
        · exact Or.inl h1
        · exact Or.inr (List.mem_cons_of_mem _ h1)
      · intro a ha
        rcases List.mem_cons.mp ha with h2 | h2
        · rw [h2]; omega
        · exact hall a h2

theorem getAnalysisByRepo_spec (db : List AnalysisRec) (owner repo : Str)
    (hex : ∃ a ∈ db, a.owner = owner ∧ a.repo = repo) :
    ∃ c, getAnalysisByRepo db owner repo = some c ∧ c ∈ db ∧
      c.owner = owner ∧ c.repo = repo ∧
      ∀ a ∈ db, a.owner = owner → a.repo = repo → a.createdAt ≤ c.createdAt := by
  obtain ⟨a0, ha0, ho0, hr0⟩ := hex
  have hmem : a0 ∈ db.filter (fun a => decide (a.owner = owner) && decide (a.repo = repo)) :=
    List.mem_filter.mpr ⟨ha0, by simp [ho0, hr0]⟩
  unfold getAnalysisByRepo
  rcases hfl : db.filter (fun a => decide (a.owner = owner) && decide (a.repo = repo))
    with _ | ⟨x, xs⟩
  · rw [hfl] at hmem
    cases hmem
  · rw [hfl] at hmem
    rw [hfl, List.foldl_cons]
    rw [show pickNewer none x = some x from rfl]
    obtain ⟨d, hd, hdm, hxle, hall⟩ := foldl_pickNewer_some xs x
    rw [hd]
    have hdfl : d ∈ x :: xs := by
      rcases hdm with h | h
      · rw [h]; exact List.mem_cons_self _ _
      · exact List.mem_cons_of_mem _ h
    have hdf : d ∈ db.filter (fun a => decide (a.owner = owner) && decide (a.repo = repo)) := by
      rw [hfl]; exact hdfl
    have hdb := List.mem_filter.mp hdf
    have hdo : d.owner = owner ∧ d.repo = repo := by
      have h2 := hdb.2
      simp only [Bool.and_eq_true, decide_eq_true_eq] at h2
      exact h2
    refine ⟨d, rfl, hdb.1, hdo.1, hdo.2, ?_⟩
    intro a ha hao har
    have haf : a ∈ x :: xs := by
      rw [← hfl]
      exact List.mem_filter.mpr ⟨ha, by simp [hao, har]⟩
    rcases List.mem_cons.mp haf with h | h
    · rw [h]; exact hxle
    · exact hall a h

theorem analyzeRoute_reaches_fresh (deps : RouteDeps) (db : List AnalysisRec)
    (url : Option Str) (fr : Bool) (uid : Option Str) (pr : ParsedRepo)
    (hu : jsStrFalsy url = false) (hk : deps.hasGeminiKey = true)
    (hp : parseGitHubUrl (url.getD []) = some pr)
    (hmiss : fr = true ∨ getAnalysisByRepo db pr.owner pr.repo = none) :
    analyzeRoute deps db url fr uid = analyzeFresh deps db (url.getD []) pr uid := by
  unfold analyzeRoute
  simp only [hu, Bool.false_eq_true, if_false, hk, Bool.not_true, hp]
  rcases hmiss with h | h
  · subst h
    rfl
  · cases fr
    · simp only [Bool.not_false, if_true, h]
    · rfl

/-- C2: with forceRefresh unset and some stored analysis matching the
parsed owner and repo, the handler answers with the stored analysis of
maximal createdAt in a complete event; the trace holds no GitHub call,
no Gemini call and no insert, and the table is unchanged. -/
theorem analyzeRoute_cached (deps : RouteDeps) (db : List AnalysisRec)
    (url : Option Str) (pr : ParsedRepo) (uid : Option Str)
    (hu : jsStrFalsy url = false) (hk : deps.hasGeminiKey = true)
    (hp : parseGitHubUrl (url.getD []) = some pr)
    (hex : ∃ a ∈ db, a.owner = pr.owner ∧ a.repo = pr.repo) :
    ∃ cached, getAnalysisByRepo db pr.owner pr.repo = some cached ∧
      cached ∈ db ∧ cached.owner = pr.owner ∧ cached.repo = pr.repo ∧
      (∀ a ∈ db, a.owner = pr.owner → a.repo = pr.repo → a.createdAt ≤ cached.createdAt) ∧
      analyzeRoute deps db url false uid =
        ⟨none, [evCachedInfo, evComplete cached.id cached.analysisData], db⟩ := by
  obtain ⟨c, hc, hm, ho, hr2, hmax⟩ := getAnalysisByRepo_spec db pr.owner pr.repo hex
  refine ⟨c, hc, hm, ho, hr2, hmax, ?_⟩
  unfold analyzeRoute
  simp only [hu, hk, hp, hc, Bool.false_eq_true, Bool.not_true, Bool.not_false,
    if_false, if_true, eq_self_iff_true]

/-- C6: on the non-cached path the handler emits the progress events in
the order info, tree, languages, files, analysis, saving, complete, with
every GitHub call before the Gemini call and the insert before the
complete event; the first failing call ends the stream with one error
event (the transformed message) and no insert. -/
theorem analyzeRoute_events (deps : RouteDeps) (db : List AnalysisRec)
    (url : Option Str) (fr : Bool) (uid : Option Str) (pr : ParsedRepo)
    (hu : jsStrFalsy url = false) (hk : deps.hasGeminiKey = true)
    (hp : parseGitHubUrl (url.getD []) = some pr)
    (hmiss : fr = true ∨ getAnalysisByRepo db pr.owner pr.repo = none) :
    (∀ ri fileTree langs files analysis,
        deps.fetchRepoInfo pr.owner pr.repo = Except.ok ri →
        deps.fetchRepoTree pr.owner pr.repo = Except.ok fileTree →
        deps.fetchLanguages pr.owner pr.repo = Except.ok langs →
        deps.fetchKeyFiles pr.owner pr.repo fileTree = Except.ok files →
        deps.analyzeRepository ri fileTree files langs = Except.ok analysis →
        analyzeRoute deps db url fr uid =
          ⟨none, [evInfoFetch, AEv.ghInfo, evTree, AEv.ghTree, evLangs, AEv.ghLangs,
                  evFiles fileTree.length, AEv.ghFiles, evAnalysis, AEv.gemini,
                  evSaving, AEv.save, evComplete deps.savedId analysis],
           db ++ [⟨deps.savedId, url.getD [], pr.owner, pr.repo, uid, analysis, deps.now⟩]⟩) ∧
    (∀ e, deps.fetchRepoInfo pr.owner pr.repo = Except.error e →
        analyzeRoute deps db url fr uid =
          ⟨none, [evInfoFetch, AEv.ghInfo, errEv e], db⟩) ∧
    (∀ ri e, deps.fetchRepoInfo pr.owner pr.repo = Except.ok ri →
        deps.fetchRepoTree pr.owner pr.repo = Except.error e →
        analyzeRoute deps db url fr uid =
          ⟨none, [evInfoFetch, AEv.ghInfo, evTree, AEv.ghTree, errEv e], db⟩) ∧
    (∀ ri fileTree e, deps.fetchRepoInfo pr.owner pr.repo = Except.ok ri →
        deps.fetchRepoTree pr.owner pr.repo = Except.ok fileTree →
        deps.fetchLanguages pr.owner pr.repo = Except.error e →
        analyzeRoute deps db url fr uid =
          ⟨none, [evInfoFetch, AEv.ghInfo, evTree, AEv.ghTree, evLangs, AEv.ghLangs, errEv e],
           db⟩) ∧
    (∀ ri fileTree langs e, deps.fetchRepoInfo pr.owner pr.repo = Except.ok ri →
        deps.fetchRepoTree pr.owner pr.repo = Except.ok fileTree →
        deps.fetchLanguages pr.owner pr.repo = Except.ok langs →
        deps.fetchKeyFiles pr.owner pr.repo fileTree = Except.error e →
        analyzeRoute deps db url fr uid =
          ⟨none, [evInfoFetch, AEv.ghInfo, evTree, AEv.ghTree, evLangs, AEv.ghLangs,
                  evFiles fileTree.length, AEv.ghFiles, errEv e], db⟩) ∧
    (∀ ri fileTree langs files e, deps.fetchRepoInfo pr.owner pr.repo = Except.ok ri →
        deps.fetchRepoTree pr.owner pr.repo = Except.ok fileTree →
        deps.fetchLanguages pr.owner pr.repo = Except.ok langs →
        deps.fetchKeyFiles pr.owner pr.repo fileTree = Except.ok files →
        deps.analyzeRepository ri fileTree files langs = Except.error e →
        analyzeRoute deps db url fr uid =
          ⟨none, [evInfoFetch, AEv.ghInfo, evTree, AEv.ghTree, evLangs, AEv.ghLangs,
                  evFiles fileTree.length, AEv.ghFiles, evAnalysis, AEv.gemini, errEv e],
           db⟩) := by
  have hfr := analyzeRoute_reaches_fresh deps db url fr uid pr hu hk hp hmiss
  refine ⟨?_, ?_, ?_, ?_, ?_, ?_⟩
  · intro ri fileTree langs files analysis h1 h2 h3 h4 h5
    rw [hfr]
    unfold analyzeFresh
    simp only [h1, h2, h3, h4, h5]
  · intro e h1
    rw [hfr]
    unfold analyzeFresh
    rw [h1]
  · intro ri e h1 h2
    rw [hfr]
    unfold analyzeFresh
    rw [h1, h2]
  · intro ri fileTree e h1 h2 h3
    rw [hfr]
    unfold analyzeFresh
    rw [h1, h2, h3]
  · intro ri fileTree langs e h1 h2 h3 h4
    rw [hfr]
    unfold analyzeFresh
    simp only [h1, h2, h3, h4]
  · intro ri fileTree langs files e h1 h2 h3 h4 h5
    rw [hfr]
    unfold analyzeFresh
    simp only [h1, h2, h3, h4, h5]

def wAnalysisA : AnalysisResultM :=
  ⟨⟨[], [], [], 0, 0, [], []⟩, JValue.jnull, JValue.jnull, JValue.jnull, JValue.jnull,
   JValue.jnull, JValue.jnull, JValue.jnull, JValue.jnull, JValue.jnull, JValue.jnull,
   JValue.jnull, JValue.jnull, JValue.jnull, JValue.jnull, [], []⟩

def wDepsA : RouteDeps :=
  { hasGeminiKey := true
    fetchRepoInfo := fun _ _ => Except.ok ⟨[], [], [], 0, 0, [], []⟩
    fetchRepoTree := fun _ _ => Except.ok [("a.ts").data]
    fetchLanguages := fun _ _ => Except.ok []
    fetchKeyFiles := fun _ _ _ => Except.ok []
    analyzeRepository := fun _ _ _ _ => Except.ok wAnalysisA
    savedId := 7
    now := 5 }

def wRecA1 : AnalysisRec := ⟨1, ("o/r").data, ("o").data, ("r").data, none, wAnalysisA, 1⟩

def wRecA2 : AnalysisRec := ⟨2, ("o/r").data, ("o").data, ("r").data, none, wAnalysisA, 9⟩

def wDbA : List AnalysisRec := [wRecA1, wRecA2]

theorem analyzeRoute_cached_witness :
    analyzeRoute wDepsA wDbA (some (("o/r").data)) false none =
      ⟨none, [evCachedInfo, evComplete 2 wAnalysisA], wDbA⟩ := by
  obtain ⟨c, hc, -, -, -, -, heq⟩ :=
    analyzeRoute_cached wDepsA wDbA (some (("o/r").data)) ⟨("o").data, ("r").data⟩ none
      (by decide) rfl (by decide)
      ⟨wRecA2, List.mem_cons_of_mem _ (List.mem_cons_self _ _), rfl, rfl⟩
  have h2 : getAnalysisByRepo wDbA (("o").data) (("r").data) = some wRecA2 := rfl
  have hcw : wRecA2 = c := Option.some.inj (h2.symm.trans hc)
  rw [← hcw] at heq
  exact heq

theorem analyzeRoute_events_witness :
    analyzeRoute wDepsA [] (some (("o/r").data)) true none =
      ⟨none, [evInfoFetch, AEv.ghInfo, evTree, AEv.ghTree, evLangs, AEv.ghLangs,
              evFiles 1, AEv.ghFiles, evAnalysis, AEv.gemini, evSaving, AEv.save,
              evComplete 7 wAnalysisA],
       [⟨7, ("o/r").data, ("o").data, ("r").data, none, wAnalysisA, 5⟩]⟩ := by
  have h := (analyzeRoute_events wDepsA [] (some (("o/r").data)) true none
      ⟨("o").data, ("r").data⟩ (by decide) rfl (by decide) (Or.inl rfl)).1
      ⟨[], [], [], 0, 0, [], []⟩ [("a.ts").data] [] [] wAnalysisA rfl rfl rfl rfl rfl
  exact h

/-- C8: signup answers 400 exactly when username or password is missing
or empty, the username is shorter than 3, or the password is shorter
than 6; otherwise 409 exactly when the username is taken; otherwise it
appends the user with the hashed (never plaintext) password and answers
with the signed token and the user's id and username. -/
theorem signup_spec (hash : Str → Str) (sign : Str → Str → Str) (newId : Str)
    (users : List UserRec) (username password : Option Str) :
    (signup hash sign newId users username password).1.isBadRequest
      = signupInvalid username password ∧
    (signupInvalid username password = true →
      (signup hash sign newId users username password).2 = users) ∧
    (signupInvalid username password = false →
      users.any (fun r => decide (r.username = username.getD [])) = true →
      signup hash sign newId users username password
        = (SignupResp.conflict (("Username already taken").data), users)) ∧
    (signupInvalid username password = false →
      users.any (fun r => decide (r.username = username.getD [])) = false →
      signup hash sign newId users username password
        = (SignupResp.ok (sign newId (username.getD [])) newId (username.getD []),
           users ++ [⟨newId, username.getD [], hash (password.getD [])⟩])) := by
  refine ⟨?_, ?_, ?_, ?_⟩
  · unfold signup signupInvalid
    cases h1 : (jsStrFalsy username || jsStrFalsy password)
    · simp only [Bool.false_eq_true, if_false, Bool.false_or]
      by_cases h2 : (username.getD []).length < 3
      · simp [h2, SignupResp.isBadRequest]
      · by_cases h3 : (password.getD []).length < 6
        · simp [h2, h3, SignupResp.isBadRequest]
        · cases hf : users.find? (fun r => decide (r.username = username.getD []))
          · simp [h2, h3, hf, SignupResp.isBadRequest]
          · simp [h2, h3, hf, SignupResp.isBadRequest]
    · simp [SignupResp.isBadRequest]
  · intro hinv
    unfold signup
    cases h1 : (jsStrFalsy username || jsStrFalsy password)
    · simp only [Bool.false_eq_true, if_false]
      by_cases h2 : (username.getD []).length < 3
      · rw [if_pos h2]
      · rw [if_neg h2]
        by_cases h3 : (password.getD []).length < 6
        · rw [if_pos h3]
        · exfalso
          unfold signupInvalid at hinv
          simp [h1, h2, h3] at hinv
    · rfl
  · intro hinv htaken
    have hparts : ((jsStrFalsy username || jsStrFalsy password) = false) ∧
        ¬ (username.getD []).length < 3 ∧ ¬ (password.getD []).length < 6 := by
      unfold signupInvalid at hinv
      simp only [Bool.or_eq_false_iff, decide_eq_false_iff_not] at hinv
      exact ⟨Bool.or_eq_false_iff.mpr hinv.1, hinv.2.1, hinv.2.2⟩
    obtain ⟨r, hr⟩ : ∃ r, users.find? (fun r => decide (r.username = username.getD [])) = some r := by
      obtain ⟨x, hx, hpx⟩ := List.any_eq_true.mp htaken
      cases hf : users.find? (fun r => decide (r.username = username.getD []))
      · exact absurd hpx (List.find?_eq_none.mp hf x hx)
      · exact ⟨_, rfl⟩
    unfold signup
    rw [hparts.1]
    simp only [Bool.false_eq_true, if_false]
    rw [if_neg hparts.2.1, if_neg hparts.2.2, hr]
  · intro hinv hfree
    have hparts : ((jsStrFalsy username || jsStrFalsy password) = false) ∧
        ¬ (username.getD []).length < 3 ∧ ¬ (password.getD []).length < 6 := by
      unfold signupInvalid at hinv
      simp only [Bool.or_eq_false_iff, decide_eq_false_iff_not] at hinv
      exact ⟨Bool.or_eq_false_iff.mpr hinv.1, hinv.2.1, hinv.2.2⟩
    have hnone : users.find? (fun r => decide (r.username = username.getD [])) = none := by
      rw [List.find?_eq_none]
      intro x hx hpx
      have hany : users.any (fun r => decide (r.username = username.getD [])) = true :=
        List.any_eq_true.mpr ⟨x, hx, hpx⟩
      rw [hfree] at hany
      exact Bool.false_ne_true hany
    unfold signup
    rw [hparts.1]
    simp only [Bool.false_eq_true, if_false]
    rw [if_neg hparts.2.1, if_neg hparts.2.2, hnone]

theorem signup_spec_witness :
    signup (fun p => 'H' :: p) (fun i u => i ++ u) (("u2").data)
        [⟨("u1").data, ("bob").data, ("HX").data⟩]
        (some (("alice").data)) (some (("secret").data))
      = (SignupResp.ok (("u2alice").data) (("u2").data) (("alice").data),
         [⟨("u1").data, ("bob").data, ("HX").data⟩,
          ⟨("u2").data, ("alice").data, ("Hsecret").data⟩]) := by
  have h := (signup_spec (fun p => 'H' :: p) (fun i u => i ++ u) (("u2").data)
      [⟨("u1").data, ("bob").data, ("HX").data⟩]
      (some (("alice").data)) (some (("secret").data))).2.2.2 (by decide) (by decide)
  exact h
